import Mathlib

/-!
# SorobanSMService: the request/reply bridge, its ledger executor and its cache

A shallow embedding of `src/helpers/stellar.js`, `src/helpers/redis.js`,
`src/helpers/rabbitMQ.js`, `src/index.js` and `src/utils/index.js`.

* JavaScript values are the type `JsVal`; numbers are the safe integers.
* `JSON.stringify`, `JSON.parse` and `Buffer.prototype.toString("utf8")` belong to the
  platform; they are embedded as executable functions, and the JSON round trip is
  proved for them (`parse_stringify`).
* The ledger client, the Redis client and the broker are external: their answers are
  data (`RpcServer`, `Ledger`, `RedisStore`), and every call the program issues is
  recorded in the value a function returns.
* The confirmation loop of `sendTx` has no bound in the source; the embedding runs it
  on fuel and returns `none` when the fuel is spent.
* Waiting (`delay`, the ten-minute timer) changes no value and is not represented; the
  commands one operation sends to Redis take effect in the order it issues them.
-/

namespace Soroban

/-! ## JavaScript values -/

/-- A JavaScript value, as far as the program handles one: `undefined`, `null`, a
boolean, a number (a safe integer), a string, an array, or a plain object given by
its own enumerable properties in creation order. An object has each name once. The
engine enumerates integer-like names before the others; the properties below compare
objects as mappings, which the order of the fields does not change. -/
inductive JsVal where
  | undefined
  | null
  | bool (b : Bool)
  | num (n : Int)
  | str (s : String)
  | arr (items : List JsVal)
  | obj (fields : List (String × JsVal))

/-- The own properties of a plain object. -/
abbrev JsObject := List (String × JsVal)

/-- What a `throw` carries: any value (`throw "text"`), or an `Error` instance such
as the `TypeError` the engine raises, known by its `name` and `message`. -/
inductive Thrown where
  | value (v : JsVal)
  | error (name message : String)

/-- JavaScript truthiness (`if (v)`, `!v`): `undefined`, `null`, `false`, `0` and the
empty string are falsy; every object and array is truthy. -/
def JsVal.truthy : JsVal → Bool
  | .undefined => false
  | .null => false
  | .bool b => b
  | .num n => n != 0
  | .str s => s != ""
  | .arr _ => true
  | .obj _ => true

/-- Own-property lookup in a plain object; `none` when the object has no such field. -/
def JsObject.field? : JsObject → String → Option JsVal
  | [], _ => none
  | (k, v) :: rest, name => if k = name then some v else JsObject.field? rest name

/-- The operation `CreateDataProperty`: the field `name` takes the value `v`, in place
when the object has the field already, at the end otherwise. -/
def JsObject.define : JsObject → String → JsVal → JsObject
  | [], name, v => [(name, v)]
  | (k, w) :: rest, name, v =>
    if k = name then (k, v) :: rest else (k, w) :: JsObject.define rest name v

/-- The assignment `data[name] = v` on an object created by an object literal, for a
primitive `v` (a number or a string). The name `__proto__` reaches the accessor of
`Object.prototype`, whose setter ignores a value that is neither an object nor
`null`: the object is left as it was. Any other name defines or overwrites the own
property. -/
def JsObject.assign (data : JsObject) (name : String) (v : JsVal) : JsObject :=
  if name = "__proto__" then data else JsObject.define data name v

/-- The read `v.name` for a name that no built-in prototype defines (`hash`,
`message`): an own property of an object, `undefined` everywhere else. The caller
handles `undefined` and `null`, on which the read throws. -/
def JsVal.prop : JsVal → String → JsVal
  | .obj fields, name => (JsObject.field? fields name).getD .undefined
  | _, _ => .undefined

/-! ## JSON text: `JSON.stringify` and `JSON.parse` -/

/-- The largest safe integer, `2^53 - 1`. -/
def maxSafeInteger : Nat := 9007199254740991

/-- The decimal digits of a number, most significant first, on `fuel` divisions. -/
def natDigits : Nat → Nat → List Char
  | 0, _ => []
  | fuel + 1, n =>
    if n < 10 then [Nat.digitChar n]
    else natDigits fuel (n / 10) ++ [Nat.digitChar (n % 10)]

/-- A natural number in decimal. -/
def printNat (n : Nat) : List Char := natDigits (n + 1) n

/-- An integer as `JSON.stringify` writes it. -/
def printInt (n : Int) : List Char :=
  if n < 0 then '-' :: printNat n.natAbs else printNat n.natAbs

/-- One character of a string, as `JSON.stringify` writes it inside the quotes. -/
def escapeChar (c : Char) : List Char :=
  if c = '"' then ['\\', '"']
  else if c = '\\' then ['\\', '\\']
  else if c = Char.ofNat 8 then ['\\', 'b']
  else if c = Char.ofNat 12 then ['\\', 'f']
  else if c = Char.ofNat 10 then ['\\', 'n']
  else if c = Char.ofNat 13 then ['\\', 'r']
  else if c = Char.ofNat 9 then ['\\', 't']
  else if c.toNat < 0x20 then
    ['\\', 'u', '0', '0', Nat.digitChar (c.toNat / 16), Nat.digitChar (c.toNat % 16)]
  else [c]

/-- The characters of a string, escaped. -/
def escapeChars : List Char → List Char
  | [] => []
  | c :: cs => escapeChar c ++ escapeChars cs

/-- A string in quotes, as `JSON.stringify` writes it. -/
def quote (s : String) : List Char := '"' :: escapeChars s.data ++ ['"']

mutual
/-- The JSON text of a value. An `undefined` array element is written `null`, and a
field whose value is `undefined` is left out. -/
def printValue : JsVal → List Char
  | .undefined => ['n', 'u', 'l', 'l']
  | .null => ['n', 'u', 'l', 'l']
  | .bool true => ['t', 'r', 'u', 'e']
  | .bool false => ['f', 'a', 'l', 's', 'e']
  | .num n => printInt n
  | .str s => quote s
  | .arr [] => ['[', ']']
  | .arr (x :: xs) => '[' :: printValue x ++ printItems xs
  | .obj fields => '{' :: printMembers true fields
/-- The array elements after the first, each after a comma, and the closing bracket. -/
def printItems : List JsVal → List Char
  | [] => [']']
  | x :: xs => ',' :: printValue x ++ printItems xs
/-- The members of an object and the closing brace; `first` holds until a member has
been written. -/
def printMembers : Bool → List (String × JsVal) → List Char
  | _, [] => ['}']
  | first, (_, .undefined) :: rest => printMembers first rest
  | first, (k, v) :: rest =>
    (if first then [] else [',']) ++ quote k ++ ':' :: printValue v ++ printMembers false rest
end

/-- The call `JSON.stringify(value)`: `none` stands for the result `undefined`. -/
def JSON.stringify : JsVal → Option String
  | .undefined => none
  | v => some (String.mk (printValue v))

/-- The result of reading a value off the front of a text: the value and the text
after it, a `SyntaxError`, or `outside` when the text leaves what this embedding
represents (a number that is no safe integer, an escaped surrogate) or the fuel ran
out. -/
inductive Parsed (α : Type) where
  | ok (a : α) (rest : List Char)
  | malformed
  | outside

/-- JSON white space. -/
def isWs (c : Char) : Bool := c = ' ' || c = '\t' || c = '\n' || c = '\r'

/-- The text after its leading white space. -/
def skipWs : List Char → List Char
  | [] => []
  | c :: cs => if isWs c then skipWs cs else c :: cs

/-- The leading decimal digits of a text, and the text after them. -/
def takeDigits : List Char → List Char × List Char
  | [] => ([], [])
  | c :: cs =>
    if c.isDigit then ((takeDigits cs).1.cons c, (takeDigits cs).2) else ([], c :: cs)

/-- The number a list of decimal digits writes, continuing from `acc`. -/
def digitsValue : List Char → Nat → Nat
  | [], acc => acc
  | c :: cs, acc => digitsValue cs (10 * acc + (c.toNat - 48))

/-- A JSON number at the front of the text (which starts with `-` or a digit). Only a
safe integer written without fraction and exponent is represented. -/
def parseNumber (cs : List Char) : Parsed JsVal :=
  let negative := cs.head? = some '-'
  let body := if negative then cs.tail else cs
  let (digits, rest) := takeDigits body
  match digits with
  | [] => .malformed
  | d :: more =>
    if d = '0' ∧ more ≠ [] then .malformed
    else if rest.head? = some '.' ∨ rest.head? = some 'e' ∨ rest.head? = some 'E' then .outside
    else
      let n := digitsValue digits 0
      if maxSafeInteger < n then .outside
      else if negative then (if n = 0 then .outside else .ok (.num (-(n : Int))) rest)
      else .ok (.num (n : Int)) rest

/-- The value of a hexadecimal digit. -/
def hexValue (c : Char) : Option Nat :=
  if c.isDigit then some (c.toNat - 48)
  else if 'a'.toNat ≤ c.toNat ∧ c.toNat ≤ 'f'.toNat then some (c.toNat - 87)
  else if 'A'.toNat ≤ c.toNat ∧ c.toNat ≤ 'F'.toNat then some (c.toNat - 55)
  else none

/-- The character a one-letter escape stands for. -/
def unescape (c : Char) : Option Char :=
  if c = '"' then some '"'
  else if c = '\\' then some '\\'
  else if c = '/' then some '/'
  else if c = 'b' then some (Char.ofNat 8)
  else if c = 'f' then some (Char.ofNat 12)
  else if c = 'n' then some (Char.ofNat 10)
  else if c = 'r' then some (Char.ofNat 13)
  else if c = 't' then some (Char.ofNat 9)
  else none

/-- The code unit `\uXXXX` writes, as a character; a surrogate is not represented. -/
def unicodeEscape (h1 h2 h3 h4 : Char) : Parsed Char :=
  match hexValue h1, hexValue h2, hexValue h3, hexValue h4 with
  | some a, some b, some c, some d =>
    let n := ((a * 16 + b) * 16 + c) * 16 + d
    if 0xD800 ≤ n ∧ n ≤ 0xDFFF then .outside else .ok (Char.ofNat n) []
  | _, _, _, _ => .malformed

/-- The rest of a JSON string after its opening quote; `acc` holds the characters
read so far, last first. -/
def parseString : List Char → List Char → Parsed String
  | [], _ => .malformed
  | c :: cs, acc =>
    if c = '"' then .ok (String.mk acc.reverse) cs
    else if c = '\\' then
      match cs with
      | [] => .malformed
      | e :: cs' =>
        if e = 'u' then
          match cs' with
          | h1 :: h2 :: h3 :: h4 :: cs'' =>
            match unicodeEscape h1 h2 h3 h4 with
            | .ok ch _ => parseString cs'' (ch :: acc)
            | .malformed => .malformed
            | .outside => .outside
          | _ => .malformed
        else
          match unescape e with
          | some ch => parseString cs' (ch :: acc)
          | none => .malformed
    else if c.toNat < 0x20 then .malformed
    else parseString cs (c :: acc)

/-- The text after the literal `word`, when the text starts with it. -/
def dropLiteral : List Char → List Char → Option (List Char)
  | [], cs => some cs
  | _ :: _, [] => none
  | w :: ws, c :: cs => if w = c then dropLiteral ws cs else none

/-- The assembly of a parsed object: each member defines its field, so a repeated
name keeps its last value. -/
def buildObject (members : List (String × JsVal)) : JsObject :=
  members.foldl (fun o m => JsObject.define o m.1 m.2) []

mutual
/-- A JSON value at the front of the text, after optional white space. -/
def parseValue : Nat → List Char → Parsed JsVal
  | 0, _ => .outside
  | fuel + 1, cs =>
    match skipWs cs with
    | [] => .malformed
    | c :: rest =>
      if c.isDigit ∨ c = '-' then parseNumber (c :: rest)
      else if c = '"' then
        match parseString rest [] with
        | .ok s rest' => .ok (.str s) rest'
        | .malformed => .malformed
        | .outside => .outside
      else if c = '[' then
        if (skipWs rest).head? = some ']' then .ok (.arr []) (skipWs rest).tail
        else
          match parseItems fuel rest with
          | .ok items rest' => .ok (.arr items) rest'
          | .malformed => .malformed
          | .outside => .outside
      else if c = '{' then
        if (skipWs rest).head? = some '}' then .ok (.obj []) (skipWs rest).tail
        else
          match parseMembers fuel rest with
          | .ok members rest' => .ok (.obj (buildObject members)) rest'
          | .malformed => .malformed
          | .outside => .outside
      else
        match dropLiteral ['n', 'u', 'l', 'l'] (c :: rest) with
        | some rest' => .ok .null rest'
        | none =>
          match dropLiteral ['t', 'r', 'u', 'e'] (c :: rest) with
          | some rest' => .ok (.bool true) rest'
          | none =>
            match dropLiteral ['f', 'a', 'l', 's', 'e'] (c :: rest) with
            | some rest' => .ok (.bool false) rest'
            | none => .malformed
/-- The elements of an array up to and including its closing bracket; the text starts
at an element. -/
def parseItems : Nat → List Char → Parsed (List JsVal)
  | 0, _ => .outside
  | fuel + 1, cs =>
    match parseValue fuel cs with
    | .ok v rest =>
      match skipWs rest with
      | [] => .malformed
      | c :: rest' =>
        if c = ']' then .ok [v] rest'
        else if c = ',' then
          match parseItems fuel rest' with
          | .ok vs rest'' => .ok (v :: vs) rest''
          | .malformed => .malformed
          | .outside => .outside
        else .malformed
    | .malformed => .malformed
    | .outside => .outside
/-- The members of an object up to and including its closing brace; the text starts
at a member's name. -/
def parseMembers : Nat → List Char → Parsed (List (String × JsVal))
  | 0, _ => .outside
  | fuel + 1, cs =>
    match skipWs cs with
    | [] => .malformed
    | q :: afterQuote =>
      if q ≠ '"' then .malformed
      else
        match parseString afterQuote [] with
        | .malformed => .malformed
        | .outside => .outside
        | .ok name afterName =>
          match skipWs afterName with
          | [] => .malformed
          | colon :: afterColon =>
            if colon ≠ ':' then .malformed
            else
              match parseValue fuel afterColon with
              | .malformed => .malformed
              | .outside => .outside
              | .ok v rest =>
                match skipWs rest with
                | [] => .malformed
                | c :: rest' =>
                  if c = '}' then .ok [(name, v)] rest'
                  else if c = ',' then
                    match parseMembers fuel rest' with
                    | .ok ms rest'' => .ok ((name, v) :: ms) rest''
                    | .malformed => .malformed
                    | .outside => .outside
                  else .malformed
end

/-- The result of `JSON.parse`: a value, a thrown `SyntaxError`, or `outside`. -/
inductive ParseOutcome where
  | value (v : JsVal)
  | malformed
  | outside

/-- The call `JSON.parse(text)`: one value, white space around it, nothing else. -/
def JSON.parse (text : String) : ParseOutcome :=
  match parseValue (text.length + 1) text.data with
  | .ok v rest => if skipWs rest = [] then .value v else .malformed
  | .malformed => .malformed
  | .outside => .outside

/-! ## `src/utils/index.js` -/

/-- The table `TYPES`. -/
def TYPES.Number : String := "Number"

/-- The table `TYPES`. -/
def TYPES.Uint8Array : String := "Uint8Array"

/-- The table `TYPES`. -/
def TYPES.Boolean : String := "Boolean"

/-- The table `TYPES`. -/
def TYPES.Array : String := "Array"

/-- The function `assertEqual(a, b, message)` on booleans: throws `new Error(message)`
when `a !== b`. -/
def assertEqual (a b : Bool) (message : String) : Except Thrown Unit :=
  if a ≠ b then .error (.error "Error" message) else .ok ()

/-! ## Text decoding: `Buffer.prototype.toString("utf8")` -/

/-- The state of the UTF-8 decoder between two bytes. -/
structure Utf8State where
  needed : Nat
  seen : Nat
  codePoint : Nat
  lower : Nat
  upper : Nat

/-- The decoder's state outside a multi-byte sequence. -/
def Utf8State.init : Utf8State := ⟨0, 0, 0, 0x80, 0xBF⟩

/-- The replacement character U+FFFD. -/
def replacementChar : Char := Char.ofNat 0xFFFD

/-- One byte read outside a multi-byte sequence. -/
def utf8Lead (b : Nat) : Utf8State × List Char :=
  if b ≤ 0x7F then (Utf8State.init, [Char.ofNat b])
  else if 0xC2 ≤ b ∧ b ≤ 0xDF then (⟨1, 0, b % 0x20, 0x80, 0xBF⟩, [])
  else if 0xE0 ≤ b ∧ b ≤ 0xEF then
    (⟨2, 0, b % 0x10, if b = 0xE0 then 0xA0 else 0x80, if b = 0xED then 0x9F else 0xBF⟩, [])
  else if 0xF0 ≤ b ∧ b ≤ 0xF4 then
    (⟨3, 0, b % 0x08, if b = 0xF0 then 0x90 else 0x80, if b = 0xF4 then 0x8F else 0xBF⟩, [])
  else (Utf8State.init, [replacementChar])

/-- One byte read in any state: a byte that cannot continue the sequence ends it with
U+FFFD and is read again as a lead byte. -/
def utf8Step (st : Utf8State) (b : Nat) : Utf8State × List Char :=
  if st.needed = 0 then utf8Lead b
  else if b < st.lower ∨ st.upper < b then
    let (st', out) := utf8Lead b
    (st', replacementChar :: out)
  else
    let cp := st.codePoint * 0x40 + b % 0x40
    if st.seen + 1 = st.needed then (Utf8State.init, [Char.ofNat cp])
    else (⟨st.needed, st.seen + 1, cp, 0x80, 0xBF⟩, [])

/-- The decoder run over the bytes; an unfinished sequence at the end gives U+FFFD. -/
def utf8Run : List Nat → Utf8State → List Char
  | [], st => if st.needed = 0 then [] else [replacementChar]
  | b :: rest, st =>
    let (st', out) := utf8Step st b
    out ++ utf8Run rest st'

/-- The call `buffer.toString("utf8")`. -/
def utf8Decode (bytes : List Nat) : String := String.mk (utf8Run bytes Utf8State.init)

/-! ## The ledger client's answers -/

mutual
/-- What `.value()` of a ledger value yields, by the tag `typeOf` gives it. -/
inductive ScNative where
  | number (n : Int)
  | uint8Array (bytes : List Nat)
  | boolean (b : Bool)
  | string (s : String)
  | bigInt (n : Int)
  | void
  | object
  | array (items : List ScItem)
/-- An element of a ledger array: a map entry, which has `key()` and `val()`, or a
bare ledger value, which has neither. The key is given by its text,
`key.toString("utf8")`. -/
inductive ScItem where
  | entry (key : String) (val : ScNative)
  | bare (v : ScNative)
end

/-- The function `typeOf`: `Object.prototype.toString.call(v).slice(8, -1)`. -/
def typeOf : ScNative → String
  | .number _ => "Number"
  | .uint8Array _ => "Uint8Array"
  | .boolean _ => "Boolean"
  | .string _ => "String"
  | .bigInt _ => "BigInt"
  | .void => "Undefined"
  | .object => "Object"
  | .array _ => "Array"

/-- The table `TX_STATUS`. -/
def TX_STATUS.PENDING : String := "PENDING"

/-- The table `TX_STATUS`. -/
def TX_STATUS.SUCCESS : String := "SUCCESS"

/-- The table `TX_STATUS`. -/
def TX_STATUS.NOT_FOUND : String := "NOT_FOUND"

/-- The answer of `server.sendTransaction`. -/
structure SendTransactionResponse where
  status : String
  hash : String
  errorResultXdr : JsVal

/-- The answer of `server.getTransaction`. `resultXdr` is the text the template
literal renders for the field; `returnValue` is `none` when the field is missing. -/
structure GetTransactionResponse where
  status : String
  resultMetaXdr : JsVal
  returnValue : Option ScNative
  resultXdr : String

/-- The ledger RPC server as `sendTx` sees it: the outcome of the submission, and the
outcome of the status query number `i` (counted from 0) for a given handle. Either
call may throw. -/
structure RpcServer where
  sendTransaction : Except Thrown SendTransactionResponse
  getTransaction : Nat → String → Except Thrown GetTransactionResponse

/-! ## `StellarService.sendTx` -/

/-- One run of `sendTx`: what it returned or threw, and the handles it passed to
`getTransaction`, in order. -/
structure SendTxRun where
  outcome : Except Thrown JsVal
  queries : List String

/-- The `switch (typeOf(val))` in the loop of `sendTx`: a numeric value is copied under
the key, a byte sequence is decoded to text under the key, any other value is logged
and leaves the result as it was. -/
def decodeEntry (data : JsObject) (key : String) (val : ScNative) : JsObject :=
  match val with
  | .number n => JsObject.assign data key (.num n)
  | .uint8Array bytes => JsObject.assign data key (.str (utf8Decode bytes))
  | _ => data

/-- The `for` loop over `returnValue`; an element without `key()` throws a `TypeError`
out of the loop. -/
def decodeEntries : List ScItem → JsObject → Except Thrown JsObject
  | [], data => .ok data
  | .bare _ :: _, _ => .error (.error "TypeError" "returnValue[i].key is not a function")
  | .entry key val :: rest, data => decodeEntries rest (decodeEntry data key val)

/-- The branch `getResponse.status === TX_STATUS.SUCCESS` of `sendTx`. -/
def decodeSuccess (hash : String) (resp : GetTransactionResponse) : Except Thrown JsVal :=
  if !resp.resultMetaXdr.truthy then
    .error (.value (.str "Empty .resultMetaXDR in getTransaction response"))
  else
    match resp.returnValue with
    | none =>
      .error (.error "TypeError" "Cannot read properties of undefined (reading 'value')")
    | some returnValue =>
      if typeOf returnValue = TYPES.Boolean then
        match returnValue with
        | .boolean b => .ok (.bool b)
        | _ => .error (.value (.str ("Unknown type: " ++ typeOf returnValue)))
      else if typeOf returnValue ≠ TYPES.Array then
        .error (.value (.str ("Unknown type: " ++ typeOf returnValue)))
      else
        match returnValue with
        | .array items =>
          (decodeEntries items [("txHash", .str hash)]).map JsVal.obj
        | _ => .error (.value (.str ("Unknown type: " ++ typeOf returnValue)))

/-- What `sendTx` does with the response that ended the `while` loop. -/
def finish (hash : String) (resp : GetTransactionResponse) : Except Thrown JsVal :=
  if resp.status = TX_STATUS.SUCCESS then decodeSuccess hash resp
  else .error (.value (.str ("Transaction failed: " ++ resp.resultXdr)))

/-- The `while (getResponse.status === TX_STATUS.NOT_FOUND)` loop, entered with the
response `resp` of the latest query and the handles `asked` queried so far. Each turn
queries the same handle again. -/
def poll (server : RpcServer) (hash : String) :
    Nat → GetTransactionResponse → List String → Option SendTxRun
  | fuel, resp, asked =>
    if resp.status = TX_STATUS.NOT_FOUND then
      match fuel with
      | 0 => none
      | fuel + 1 =>
        match server.getTransaction asked.length hash with
        | .error e => some ⟨.error e, asked ++ [hash]⟩
        | .ok next => poll server hash fuel next (asked ++ [hash])
    else some ⟨finish hash resp, asked⟩

/-- The method `sendTx(preparedTransaction)`, run on `fuel` turns of the loop. -/
def sendTx (server : RpcServer) (fuel : Nat) : Option SendTxRun :=
  match server.sendTransaction with
  | .error e => some ⟨.error e, []⟩
  | .ok sendResponse =>
    if sendResponse.status = TX_STATUS.PENDING then
      match server.getTransaction 0 sendResponse.hash with
      | .error e => some ⟨.error e, [sendResponse.hash]⟩
      | .ok getResponse => poll server sendResponse.hash fuel getResponse [sendResponse.hash]
    else some ⟨.error (.value sendResponse.errorResultXdr), []⟩

/-! ## Serializable values -/

mutual
/-- A value that JSON represents in this embedding: `null`, a boolean, a safe integer,
a string, an array of such values, or an object of such values with distinct names. -/
def JsVal.serializable : JsVal → Bool
  | .undefined => false
  | .null => true
  | .bool _ => true
  | .num n => decide (n.natAbs ≤ maxSafeInteger)
  | .str _ => true
  | .arr items => itemsSerializable items
  | .obj fields => membersSerializable fields && decide ((fields.map Prod.fst).Nodup)
/-- Every element is serializable. -/
def itemsSerializable : List JsVal → Bool
  | [] => true
  | x :: xs => x.serializable && itemsSerializable xs
/-- Every field's value is serializable. -/
def membersSerializable : List (String × JsVal) → Bool
  | [] => true
  | (_, v) :: rest => v.serializable && membersSerializable rest
end

mutual
/-- The fuel that reading a value back takes. -/
def JsVal.weight : JsVal → Nat
  | .arr items => 1 + itemsWeight items
  | .obj fields => 1 + membersWeight fields
  | _ => 1
/-- The fuel that reading the elements back takes. -/
def itemsWeight : List JsVal → Nat
  | [] => 0
  | x :: xs => 1 + x.weight + itemsWeight xs
/-- The fuel that reading the members back takes. -/
def membersWeight : List (String × JsVal) → Nat
  | [] => 0
  | (_, v) :: rest => 1 + v.weight + membersWeight rest
end

/-- The text of a non-empty array after its opening bracket. -/
def itemsText : List JsVal → List Char
  | [] => []
  | x :: xs => printValue x ++ printItems xs

/-- The text of a non-empty object after its opening brace, when no value is
`undefined`. -/
def membersText : List (String × JsVal) → List Char
  | [] => []
  | (k, v) :: rest => quote k ++ ':' :: printValue v ++ printMembers false rest

/-- The text after a value ends it: nothing, or a comma, or a closing bracket or
brace. -/
def Delimited (rest : List Char) : Prop :=
  ∀ c, rest.head? = some c → c = ',' ∨ c = ']' ∨ c = '}'

/-! ## Text of a value: template literals -/

mutual
/-- The text a template literal renders for a value (`ToString`). -/
def JsVal.toText : JsVal → String
  | .undefined => "undefined"
  | .null => "null"
  | .bool true => "true"
  | .bool false => "false"
  | .num n => String.mk (printInt n)
  | .str s => s
  | .arr items => joinText items
  | .obj _ => "[object Object]"
/-- The method `Array.prototype.join` with a comma: `null` and `undefined` give the
empty text. -/
def joinText : List JsVal → String
  | [] => ""
  | [.undefined] => ""
  | [.null] => ""
  | [x] => x.toText
  | .undefined :: rest => "," ++ joinText rest
  | .null :: rest => "," ++ joinText rest
  | x :: rest => x.toText ++ "," ++ joinText rest
end

/-! ## `src/helpers/redis.js` -/

/-- A Redis entry: the stored text and the time to live set by `EXPIRE`, if any. -/
structure RedisEntry where
  payload : String
  ttl : Option Int

/-- The Redis database: keys with their entries. -/
abbrev RedisStore := List (String × RedisEntry)

/-- The command `GET key`. -/
def RedisStore.get : RedisStore → String → Option String
  | [], _ => none
  | (k, e) :: rest, key => if k = key then some e.payload else RedisStore.get rest key

/-- The command `SET key payload`: the key holds the payload and has no time to live. -/
def RedisStore.set : RedisStore → String → String → RedisStore
  | [], key, payload => [(key, ⟨payload, none⟩)]
  | (k, e) :: rest, key, payload =>
    if k = key then (k, ⟨payload, none⟩) :: rest else (k, e) :: RedisStore.set rest key payload

/-- The command `EXPIRE key seconds`, for positive `seconds`. -/
def RedisStore.expire : RedisStore → String → Int → RedisStore
  | [], _, _ => []
  | (k, e) :: rest, key, seconds =>
    if k = key then (k, ⟨e.payload, some seconds⟩) :: rest
    else (k, e) :: RedisStore.expire rest key seconds

/-- The command `DEL key ...`. -/
def RedisStore.del (store : RedisStore) (keys : List String) : RedisStore :=
  store.filter (fun entry => decide (entry.1 ∉ keys))

/-- The characters with a meaning of their own in a Redis key pattern. -/
def isGlobChar (c : Char) : Bool := c = '*' || c = '?' || c = '[' || c = '\\'

/-- The command `KEYS literal*` for a text without pattern characters: the keys that
start with the text. A text with pattern characters is not represented. -/
def RedisStore.keysStartingWith (store : RedisStore) (literal : String) : Option (List String) :=
  if literal.data.any isGlobChar then none
  else some ((store.map Prod.fst).filter (fun k => List.isPrefixOf literal.data k.data))

/-- The part of `process.env` the program reads. -/
structure ProcessEnv where
  NODE_ENV : Option String

/-- The constant `DEFAULT_EXPIRED_TIME`. -/
def DEFAULT_EXPIRED_TIME : Int := 60

/-- The function `constructRedisKey({ key })`. -/
def constructRedisKey (env : ProcessEnv) (key : String) : String :=
  if env.NODE_ENV ≠ some "test" then key else "__test:" ++ key

/-- The function `pullFromCache({ key })`: `JSON.parse` of what `GET` answers, which is
`null` for a missing key; `JSON.parse(null)` reads the text `null`. -/
def pullFromCache (store : RedisStore) (key : String) : ParseOutcome :=
  match store.get key with
  | some payload => JSON.parse payload
  | none => JSON.parse "null"

/-- The function `getCacheValue({ key })`; `none` when the stored text is outside the
embedding. The test `typeof data === "string" && data === "{}"` holds for the string
`"{}"` alone. A `SyntaxError` is caught and gives `undefined`. -/
def getCacheValue (env : ProcessEnv) (store : RedisStore) (key : String) : Option JsVal :=
  let cacheKey := constructRedisKey env key
  match pullFromCache store cacheKey with
  | .value data =>
    match data with
    | .str s => if s = "{}" then some .undefined else some data
    | _ => some data
  | .malformed => some .undefined
  | .outside => none

/-- The function `setCacheValue({ key, value, expiredTime })`; `expiredTime` is `none`
when the caller leaves it out. The client rejects the argument `undefined`, which
`JSON.stringify(undefined)` is. -/
def setCacheValue (env : ProcessEnv) (store : RedisStore) (key : String) (value : JsVal)
    (expiredTime : Option Int) : Except Thrown RedisStore :=
  let expiredTime := expiredTime.getD DEFAULT_EXPIRED_TIME
  let cacheKey := constructRedisKey env key
  match JSON.stringify value with
  | none => .error (.error "TypeError" "Invalid argument type")
  | some payload =>
    let store := store.set cacheKey payload
    if expiredTime > 0 then .ok (store.expire cacheKey expiredTime) else .ok store

/-- The function `deleteCacheValue({ key })`. -/
def deleteCacheValue (env : ProcessEnv) (store : RedisStore) (key : String) : RedisStore :=
  store.del [constructRedisKey env key]

/-- The function `findKeysWithPrefix(prefix)`. -/
def findKeysWithPrefix (store : RedisStore) (literal : String) : Option (List String) :=
  store.keysStartingWith literal

/-- The function `removeKeysWithPrefix(prefix)`. -/
def removeKeysWithPrefix (store : RedisStore) (literal : String) : Option RedisStore :=
  match findKeysWithPrefix store literal with
  | none => none
  | some keys => if keys.length > 0 then some (store.del keys) else some store

/-! ## `StellarService`: the call and the cached operations -/

/-- The table `METHODS`. -/
def METHODS.STORE_CERT : String := "store_cert"

/-- The table `METHODS`. -/
def METHODS.UPDATE_CERT : String := "update_cert"

/-- The table `METHODS`. -/
def METHODS.GET_CERT : String := "get_cert"

/-- The table `METHODS`. -/
def METHODS.IS_EXIST : String := "is_exist"

/-- The constant `CACHE_EXPIRATION`: seven days in seconds. -/
def CACHE_EXPIRATION : Int := 60 * 60 * 24 * 7

/-- The ledger as `call` sees it. For the invocation number `i` (counted from 0) of a
method with its arguments, the steps before `sendTx` (account fetch, build, prepare,
sign) either throw or leave a server that answers the submission and the queries. -/
abbrev Ledger := Nat → String → List JsVal → Except Thrown RpcServer

/-- What the process holds between two operations: the Redis database, and the
invocations of `call` made so far, in order. -/
structure World where
  store : RedisStore
  calls : List (String × List JsVal)

/-- The method `call(method, ...args)`. -/
def StellarService.call (ledger : Ledger) (fuel : Nat) (method : String) (args : List JsVal)
    (w : World) : Option (Except Thrown JsVal × World) :=
  let w' : World := { w with calls := w.calls ++ [(method, args)] }
  match ledger w.calls.length method args with
  | .error e => some (.error e, w')
  | .ok server =>
    match sendTx server fuel with
    | none => none
    | some run => some (run.outcome, w')

/-- The method `__constructRedisKey(hash)`. -/
def StellarService.__constructRedisKey (hash : JsVal) : String :=
  "stellar:cert:" ++ hash.toText

/-- The method `__getFromCache(hash)`. -/
def StellarService.__getFromCache (env : ProcessEnv) (hash : JsVal) (w : World) : Option JsVal :=
  getCacheValue env w.store (StellarService.__constructRedisKey hash)

/-- The method `__setCache(hash, data)`. Its callers do not await it: a rejection
reaches none of them and leaves the database as it was. -/
def StellarService.__setCache (env : ProcessEnv) (hash : JsVal) (data : JsVal) (w : World) :
    World :=
  match setCacheValue env w.store (StellarService.__constructRedisKey hash) data
      (some CACHE_EXPIRATION) with
  | .ok store => { w with store := store }
  | .error _ => w

/-- The method `storeCert(hash)`. -/
def StellarService.storeCert (env : ProcessEnv) (ledger : Ledger) (fuel : Nat) (hash : JsVal)
    (w : World) : Option (Except Thrown JsVal × World) :=
  match StellarService.call ledger fuel METHODS.STORE_CERT [hash] w with
  | none => none
  | some (.error e, w') => some (.error e, w')
  | some (.ok data, w') => some (.ok data, StellarService.__setCache env hash data w')

/-- The method `updateCert(hash, newHash)`. -/
def StellarService.updateCert (env : ProcessEnv) (ledger : Ledger) (fuel : Nat)
    (hash newHash : JsVal) (w : World) : Option (Except Thrown JsVal × World) :=
  match StellarService.call ledger fuel METHODS.UPDATE_CERT [hash, newHash] w with
  | none => none
  | some (.error e, w') => some (.error e, w')
  | some (.ok data, w') => some (.ok data, StellarService.__setCache env newHash data w')

/-- The method `getCert(hash)`. -/
def StellarService.getCert (env : ProcessEnv) (ledger : Ledger) (fuel : Nat) (hash : JsVal)
    (w : World) : Option (Except Thrown JsVal × World) :=
  match StellarService.__getFromCache env hash w with
  | none => none
  | some cached =>
    if cached.truthy then some (.ok cached, w)
    else
      match StellarService.call ledger fuel METHODS.GET_CERT [hash] w with
      | none => none
      | some (.error e, w') => some (.error e, w')
      | some (.ok data, w') => some (.ok data, StellarService.__setCache env hash data w')

/-- The method `isExists(hash)`. -/
def StellarService.isExists (env : ProcessEnv) (ledger : Ledger) (fuel : Nat) (hash : JsVal)
    (w : World) : Option (Except Thrown JsVal × World) :=
  match StellarService.__getFromCache env hash w with
  | none => none
  | some cached =>
    if cached.truthy then some (.ok cached, w)
    else
      match StellarService.call ledger fuel METHODS.IS_EXIST [hash] w with
      | none => none
      | some (.error e, w') => some (.error e, w')
      | some (.ok data, w') => some (.ok data, StellarService.__setCache env hash data w')

/-! ## `src/helpers/rabbitMQ.js`: the RPC server -/

/-- A message delivered to the consumer. -/
structure Request where
  body : String
  correlationId : JsVal

/-- A call `reply(body, { correlationId })`. -/
structure Reply where
  body : String
  correlationId : JsVal

/-- One run of `rpcServerHandler`: the replies it published, in order; what its
promise was rejected with, if it was; the world it left. -/
structure HandlerRun where
  replies : List Reply
  rejected : Option Thrown
  world : World

/-- The read `error.message` in the `catch` block: the message of an `Error`, the own
property of an object, `undefined` on any other value, and a `TypeError` on
`undefined` and `null`. -/
def errorMessage : Thrown → Except Thrown JsVal
  | .error _ message => .ok (.str message)
  | .value .undefined =>
    .error (.error "TypeError" "Cannot read properties of undefined (reading 'message')")
  | .value .null =>
    .error (.error "TypeError" "Cannot read properties of null (reading 'message')")
  | .value v => .ok (v.prop "message")

/-- The elements of an array as properties named by their index, from `i` on. -/
def indexed : Nat → List JsVal → JsObject
  | _, [] => []
  | i, x :: xs => (String.mk (printNat i), x) :: indexed (i + 1) xs

/-- The spread `{ ...cert }`: the own properties of an object, the indexed elements of
an array, nothing for `undefined`, `null`, a boolean or a number. `sendTx` returns a
boolean or an object; the characters of a string are given as they are for text
without astral characters. -/
def spread : JsVal → JsObject
  | .obj fields => fields
  | .arr items => indexed 0 items
  | .str s => indexed 0 (s.data.map fun c => .str (String.mk [c]))
  | _ => []

/-- The text `JSON.stringify` gives for an object literal. -/
def stringifyObject (fields : JsObject) : String := String.mk (printValue (.obj fields))

/-- The optional read `data?.hash`. -/
def optionalHash : JsVal → JsVal
  | .undefined => .undefined
  | .null => .undefined
  | data => data.prop "hash"

/-- The function `rpcServerHandler(request, reply)`; `none` when the body is outside
the embedding or the ledger call spends the fuel. -/
def rpcServerHandler (env : ProcessEnv) (ledger : Ledger) (fuel : Nat) (request : Request)
    (w : World) : Option HandlerRun :=
  match JSON.parse request.body with
  | .outside => none
  | .malformed => some ⟨[], some (.error "SyntaxError" "Unexpected token in JSON"), w⟩
  | .value .undefined =>
    some ⟨[], some (.error "TypeError" "Cannot destructure 'JSON.parse(...)' as it is undefined."), w⟩
  | .value .null =>
    some ⟨[], some (.error "TypeError" "Cannot destructure 'JSON.parse(...)' as it is null."), w⟩
  | .value envelope =>
    let data := envelope.prop "data"
    let id := envelope.prop "id"
    let type := envelope.prop "type"
    let correlationId := request.correlationId
    match type with
    | .str t =>
      if t = "mint-token" then
        if !(optionalHash data).truthy then some ⟨[], none, w⟩
        else
          let hash := data.prop "hash"
          match StellarService.storeCert env ledger fuel hash w with
          | none => none
          | some (.ok cert, w') =>
            some ⟨[⟨stringifyObject [("id", id), ("type", type), ("data", .obj (spread cert))],
                    correlationId⟩], none, w'⟩
          | some (.error error, w') =>
            match errorMessage error with
            | .error thrown => some ⟨[], some thrown, w'⟩
            | .ok message =>
              some ⟨[⟨stringifyObject
                        [("data", .obj [("data", data), ("id", id), ("type", type)]),
                         ("error_message", message)],
                      correlationId⟩], none, w'⟩
      else some ⟨[], none, w⟩
    | _ => some ⟨[], none, w⟩

/-! ## `src/index.js`: the Gateway's mint route -/

/-- What the mint route does to the broker. -/
inductive GatewayEffect where
  | createRPCClient
  | send (routingKey replyTo correlationId body : String)

/-- One run of the route `POST /api/v1/mint` up to the publication of the request: the
broker effects, in order, and what was thrown before the request was published, if
anything. The wait for the reply and the ten-minute timer come after. -/
structure MintRun where
  effects : List GatewayEffect
  thrown : Option Thrown

/-- The route `POST /api/v1/mint` for a body whose `assets` is an array. `replyTo` and
`correlationId` are the two results of `randomUUID()`. -/
def postMint (serviceName replyTo correlationId : String) (assets : List JsVal) (mock : JsVal) :
    MintRun :=
  match assertEqual (decide (0 < assets.length)) true "No assets provided" with
  | .error e => ⟨[], some e⟩
  | .ok _ =>
    match assertEqual (decide (assets.length ≤ 1)) true "Only one asset is allowed" with
    | .error e => ⟨[], some e⟩
    | .ok _ =>
      match assets.head? with
      | none =>
        ⟨[], some (.error "TypeError" "Cannot read properties of undefined (reading 'assetName')")⟩
      | some .undefined =>
        ⟨[], some (.error "TypeError" "Cannot read properties of undefined (reading 'assetName')")⟩
      | some .null =>
        ⟨[], some (.error "TypeError" "Cannot read properties of null (reading 'assetName')")⟩
      | some asset =>
        let buff := stringifyObject
          [("data", .obj [("hash", asset.prop "assetName")]),
           ("options", .obj [("skipWait", .bool false),
                             ("mock", if mock.truthy then mock else .bool false)]),
           ("id", .str correlationId),
           ("type", .str "mint-token")]
        ⟨[.createRPCClient, .send serviceName replyTo correlationId buff], none⟩

/-! ## Vocabulary of the properties -/

/-- The server answers the submission with `PENDING` and the handle `hash`, the first
`n` status queries for the handle with `NOT_FOUND`, and the next one with `final`. -/
def AnswersAfter (server : RpcServer) (hash : String) (n : Nat)
    (final : GetTransactionResponse) : Prop :=
  (∃ e, server.sendTransaction = .ok ⟨TX_STATUS.PENDING, hash, e⟩) ∧
  (∀ i, i < n → ∃ r, server.getTransaction i hash = .ok r ∧ r.status = TX_STATUS.NOT_FOUND) ∧
  server.getTransaction n hash = .ok final

/-- A server that answers the submission with `PENDING` and the handle `hash`, the
first `n` status queries with `NOT_FOUND`, and every later one with `final`. -/
def scriptedServer (hash : String) (n : Nat) (final : GetTransactionResponse) : RpcServer where
  sendTransaction := .ok ⟨TX_STATUS.PENDING, hash, .undefined⟩
  getTransaction := fun i _ =>
    if i < n then .ok ⟨TX_STATUS.NOT_FOUND, .undefined, none, ""⟩ else .ok final

/-- The two read operations of the cached facade. -/
inductive ReadOp where
  | getCert
  | isExists

/-- The ledger method a read operation calls. -/
def ReadOp.method : ReadOp → String
  | .getCert => METHODS.GET_CERT
  | .isExists => METHODS.IS_EXIST

/-- A read operation, run. -/
def ReadOp.run : ReadOp → ProcessEnv → Ledger → Nat → JsVal → World →
    Option (Except Thrown JsVal × World)
  | .getCert => StellarService.getCert
  | .isExists => StellarService.isExists

/-- A ledger on which every call is submitted with the handle `H` and confirmed at
the first query with the return value `returnValue`. -/
def confirmingLedger (returnValue : ScNative) : Ledger := fun _ _ _ =>
  .ok (scriptedServer "H" 0 ⟨TX_STATUS.SUCCESS, .str "AAAAAw==", some returnValue, ""⟩)

/-- A ledger that rejects every submission: `sendTransaction` answers with the status
`ERROR` and the error payload `payload`. -/
def rejectingLedger (payload : JsVal) : Ledger := fun _ _ _ =>
  .ok ⟨.ok ⟨"ERROR", "H", payload⟩, fun _ _ => .error (.error "Error" "no query expected")⟩

/-- A ledger on which every transaction ends with the status `FAILED` and the result
payload `resultXdr`. -/
def failingLedger (resultXdr : String) : Ledger := fun _ _ _ =>
  .ok (scriptedServer "H" 0 ⟨"FAILED", .undefined, none, resultXdr⟩)

/-- A ledger whose account fetch fails with an `Error` instance. -/
def unreachableLedger (message : String) : Ledger := fun _ _ _ =>
  .error (.error "Error" message)

/-- A mint-token request for the hash `abc` with the correlation identity `c-1`. -/
def mintRequest : Request :=
  ⟨"\x7b\"data\":\x7b\"hash\":\"abc\"\x7d,\"options\":\x7b\"skipWait\":false,\"mock\":false\x7d,\"id\":\"c-1\",\"type\":\"mint-token\"\x7d",
   .str "c-1"⟩

/-- The entry the database holds under a key: its text and its time to live. -/
def RedisStore.entry? : RedisStore → String → Option RedisEntry
  | [], _ => none
  | (k, e) :: rest, key => if k = key then some e else RedisStore.entry? rest key

/-- A ledger on which the call number `i` is submitted with the handle `H` followed by
`i` and confirmed at the first query with the return value `returnValue`. -/
def numberedLedger (returnValue : ScNative) : Ledger := fun i _ _ =>
  .ok (scriptedServer (String.mk ('H' :: printNat i)) 0
    ⟨TX_STATUS.SUCCESS, .str "AAAAAw==", some returnValue, ""⟩)

/-- A text that `JSON.parse` reads as the empty object: an opening and a closing
brace, with optional white space before, between and after them. -/
def EmptyObjectText (payload : String) : Prop :=
  ∃ a b c : List Char, (∀ x ∈ a, isWs x = true) ∧ (∀ x ∈ b, isWs x = true)
    ∧ (∀ x ∈ c, isWs x = true) ∧ payload.data = a ++ '{' :: (b ++ '}' :: c)

/-- A structured return value: the array of the map entries with the given keys and
values. -/
def structured (entries : List (String × ScNative)) : ScNative :=
  .array (entries.map fun e => .entry e.1 e.2)

/-- The values the loop of `sendTx` copies into the result: a number, a byte
sequence. -/
def ScNative.copied : ScNative → Bool
  | .number _ => true
  | .uint8Array _ => true
  | _ => false

/-- The field the specification gives an entry: the number itself, the UTF-8 text of a
byte sequence, no field for any other value. -/
def specField : String × ScNative → Option (String × JsVal)
  | (key, .number n) => some (key, .num n)
  | (key, .uint8Array bytes) => some (key, .str (utf8Decode bytes))
  | _ => none

/-- The mapping the specification gives a confirmed transaction: `txHash` with the
handle, then one field for each entry that has one. -/
def specMapping (hash : String) (entries : List (String × ScNative)) : JsObject :=
  ("txHash", .str hash) :: entries.filterMap specField

/-! ## The JSON round trip -/

theorem digitChar_isDigit {r : Nat} (h : r < 10) : (Nat.digitChar r).isDigit = true := by
  interval_cases r <;> rfl

theorem digitChar_value {r : Nat} (h : r < 10) : (Nat.digitChar r).toNat - 48 = r := by
  interval_cases r <;> rfl

theorem natDigits_isDigit : ∀ (fuel n : Nat) (c : Char), c ∈ natDigits fuel n → c.isDigit = true := by
  intro fuel
  induction fuel with
  | zero => intro n c hc; simp [natDigits] at hc
  | succ f ih =>
    intro n c hc
    unfold natDigits at hc
    split_ifs at hc with h
    · simp only [List.mem_singleton] at hc
      subst hc
      exact digitChar_isDigit h
    · rcases List.mem_append.mp hc with h1 | h1
      · exact ih _ _ h1
      · simp only [List.mem_singleton] at h1
        subst h1
        exact digitChar_isDigit (Nat.mod_lt _ (by decide))

theorem digitsValue_append (a b : List Char) (acc : Nat) :
    digitsValue (a ++ b) acc = digitsValue b (digitsValue a acc) := by
  induction a generalizing acc with
  | nil => rfl
  | cons c cs ih => exact ih _

theorem digitsValue_natDigits : ∀ (fuel n : Nat), n < fuel → digitsValue (natDigits fuel n) 0 = n := by
  intro fuel
  induction fuel with
  | zero => intro n h; omega
  | succ f ih =>
    intro n hn
    unfold natDigits
    split_ifs with h
    · simp only [digitsValue, digitChar_value h]; omega
    · rw [digitsValue_append, ih (n / 10) (by omega)]
      simp only [digitsValue, digitChar_value (Nat.mod_lt n (by decide : 0 < 10))]
      omega

theorem natDigits_ne_nil (fuel n : Nat) (h : n < fuel) : natDigits fuel n ≠ [] := by
  cases fuel with
  | zero => omega
  | succ f =>
    unfold natDigits
    split_ifs <;> simp

theorem natDigits_leading : ∀ (fuel n : Nat) (more : List Char), n < fuel →
    natDigits fuel n = '0' :: more → more = [] := by
  intro fuel
  induction fuel with
  | zero => intro n more h; omega
  | succ f ih =>
    intro n more hn heq
    unfold natDigits at heq
    split_ifs at heq with h
    · simp only [List.cons.injEq] at heq
      exact heq.2.symm
    · exfalso
      have hq : n / 10 < f := by omega
      have hne := natDigits_ne_nil f (n / 10) hq
      cases hd : natDigits f (n / 10) with
      | nil => exact hne hd
      | cons d tl =>
        rw [hd] at heq
        simp only [List.cons_append, List.cons.injEq] at heq
        have hd0 : natDigits f (n / 10) = '0' :: tl := by rw [hd, heq.1]
        have htl := ih (n / 10) tl hq hd0
        have hv := digitsValue_natDigits f (n / 10) hq
        rw [hd0, htl] at hv
        simp [digitsValue] at hv
        omega

theorem takeDigits_append (ds rest : List Char) (hds : ∀ c ∈ ds, c.isDigit = true)
    (hrest : ∀ c, rest.head? = some c → c.isDigit = false) :
    takeDigits (ds ++ rest) = (ds, rest) := by
  induction ds with
  | nil =>
    cases rest with
    | nil => rfl
    | cons c cs =>
      have := hrest c rfl
      simp [takeDigits, this]
  | cons d ds ih =>
    have hd := hds d (List.mem_cons_self _ _)
    have := ih (fun c hc => hds c (List.mem_cons_of_mem _ hc))
    simp [takeDigits, hd, this]

theorem Delimited.not_digit {rest : List Char} (h : Delimited rest) :
    ∀ c, rest.head? = some c → c.isDigit = false := by
  intro c hc
  rcases h c hc with h | h | h <;> subst h <;> rfl

theorem parseNumber_printInt (n : Int) (rest : List Char) (hn : n.natAbs ≤ maxSafeInteger)
    (hrest : Delimited rest) : parseNumber (printInt n ++ rest) = .ok (.num n) rest := by
  have hdig := natDigits_isDigit (n.natAbs + 1) n.natAbs
  have hne := natDigits_ne_nil (n.natAbs + 1) n.natAbs (by omega)
  have hval := digitsValue_natDigits (n.natAbs + 1) n.natAbs (by omega)
  have hlead := natDigits_leading (n.natAbs + 1) n.natAbs
  have htake := takeDigits_append (printNat n.natAbs) rest hdig hrest.not_digit
  have hr1 : rest.head? ≠ some '.' := fun h => by rcases hrest _ h with h | h | h <;> simp at h
  have hr2 : rest.head? ≠ some 'e' := fun h => by rcases hrest _ h with h | h | h <;> simp at h
  have hr3 : rest.head? ≠ some 'E' := fun h => by rcases hrest _ h with h | h | h <;> simp at h
  unfold printNat at htake
  cases hd : natDigits (n.natAbs + 1) n.natAbs with
  | nil => exact absurd hd hne
  | cons d more =>
    have hlz : ¬ (d = '0' ∧ more ≠ []) := by
      rintro ⟨h0, h1⟩
      subst h0
      exact h1 (hlead more (by omega) hd)
    have hmax : ¬ maxSafeInteger < digitsValue (d :: more) 0 := by
      rw [← hd, hval]; omega
    have hor : ¬ (rest.head? = some '.' ∨ rest.head? = some 'e' ∨ rest.head? = some 'E') := by
      rintro (h | h | h)
      · exact hr1 h
      · exact hr2 h
      · exact hr3 h
    have htake2 : takeDigits (d :: (more ++ rest)) = (d :: more, rest) := by
      rw [hd] at htake
      exact htake
    unfold parseNumber printInt
    by_cases hneg : n < 0
    · have h1 : (('-' :: printNat n.natAbs) ++ rest).head? = some '-' := rfl
      rw [if_pos hneg]
      simp only [h1, if_true]
      simp only [List.cons_append, List.tail_cons, printNat, hd, htake2]
      rw [if_neg hlz, if_neg hor, if_neg hmax, ← hd, hval]
      have h0 : n.natAbs ≠ 0 := by omega
      rw [if_neg h0]
      congr 2
      omega
    · have hdd : d.isDigit = true := hdig d (by rw [hd]; exact List.mem_cons_self _ _)
      have hdm : ¬ ((printNat n.natAbs ++ rest).head? = some '-') := by
        unfold printNat
        rw [hd]
        simp only [List.cons_append, List.head?_cons, Option.some.injEq]
        intro h; subst h; simp [Char.isDigit] at hdd
      rw [if_neg hneg]
      simp only [hdm, if_false]
      simp only [printNat, hd, List.cons_append, htake2]
      rw [if_neg hlz, if_neg hor, if_neg hmax, ← hd, hval]
      congr 2
      omega

theorem unicodeEscape_control (n : Nat) (h : n < 32) :
    unicodeEscape '0' '0' (Nat.digitChar (n / 16)) (Nat.digitChar (n % 16))
      = .ok (Char.ofNat n) [] := by
  interval_cases n <;> rfl

theorem parseString_quote (rest acc : List Char) :
    parseString ('"' :: rest) acc = .ok (String.mk acc.reverse) rest := by
  rw [parseString.eq_def]; simp

theorem parseString_plain (c : Char) (rest acc : List Char) (h1 : c ≠ '"') (h2 : c ≠ '\\')
    (h3 : ¬ c.toNat < 0x20) : parseString (c :: rest) acc = parseString rest (c :: acc) := by
  rw [parseString.eq_def]; simp [h1, h2, h3]

theorem parseString_short (e : Char) (rest acc : List Char) (he : e ≠ 'u') :
    parseString ('\\' :: e :: rest) acc =
      match unescape e with
      | some ch => parseString rest (ch :: acc)
      | none => .malformed := by
  rw [parseString.eq_def]; simp [he]

theorem parseString_unicode (h1 h2 h3 h4 : Char) (rest acc : List Char) :
    parseString ('\\' :: 'u' :: h1 :: h2 :: h3 :: h4 :: rest) acc =
      match unicodeEscape h1 h2 h3 h4 with
      | .ok ch _ => parseString rest (ch :: acc)
      | .malformed => .malformed
      | .outside => .outside := by
  rw [parseString.eq_def]; simp

theorem parseString_escapeChars (s rest acc : List Char) :
    parseString (escapeChars s ++ '"' :: rest) acc = .ok (String.mk (acc.reverse ++ s)) rest := by
  induction s generalizing acc with
  | nil => simp [escapeChars, parseString_quote]
  | cons c s ih =>
    simp only [escapeChars, List.append_assoc]
    unfold escapeChar
    split_ifs with h1 h2 h3 h4 h5 h6 h7 h8
    · subst h1; simp [parseString_short, unescape, ih]
    · subst h2; simp [parseString_short, unescape, ih]
    · subst h3; simp [parseString_short, unescape, ih]
    · subst h4; simp [parseString_short, unescape, ih]
    · subst h5; simp [parseString_short, unescape, ih]
    · subst h6; simp [parseString_short, unescape, ih]
    · subst h7; simp [parseString_short, unescape, ih]
    · have hu := unicodeEscape_control c.toNat h8
      simp [parseString_unicode, hu, ih]
    · simp [parseString_plain, h1, h2, h8, ih]

theorem parseString_quoted (s : String) (rest : List Char) :
    parseString (escapeChars s.data ++ '"' :: rest) [] = .ok s rest := by
  rw [parseString_escapeChars]; rfl

theorem printNat_head (n : Nat) : ∃ c tl, printNat n = c :: tl ∧ c.isDigit = true := by
  have hne := natDigits_ne_nil (n + 1) n (by omega)
  unfold printNat
  cases hd : natDigits (n + 1) n with
  | nil => exact absurd hd hne
  | cons c tl =>
    exact ⟨c, tl, rfl, natDigits_isDigit (n + 1) n c (by rw [hd]; exact List.mem_cons_self _ _)⟩

theorem isDigit_not_ws {c : Char} (h : c.isDigit = true) : isWs c = false := by
  simp only [Char.isDigit, Bool.and_eq_true, decide_eq_true_eq] at h
  have h1 : c ≠ ' ' := by rintro rfl; revert h; decide
  have h2 : c ≠ '\t' := by rintro rfl; revert h; decide
  have h3 : c ≠ '\n' := by rintro rfl; revert h; decide
  have h4 : c ≠ '\r' := by rintro rfl; revert h; decide
  simp [isWs, h1, h2, h3, h4]

theorem isDigit_ne {c d : Char} (h : c.isDigit = true) (hd : d.isDigit = false) : c ≠ d := by
  rintro rfl
  rw [h] at hd
  cases hd

theorem printInt_head (n : Int) :
    ∃ c tl, printInt n = c :: tl ∧ (c.isDigit = true ∨ c = '-') := by
  unfold printInt
  split_ifs
  · exact ⟨'-', _, rfl, Or.inr rfl⟩
  · obtain ⟨c, tl, h, hc⟩ := printNat_head n.natAbs
    exact ⟨c, tl, h, Or.inl hc⟩

/-- The first character of a value's text: no white space, no closing bracket. -/
theorem printValue_head (v : JsVal) :
    ∃ c tl, printValue v = c :: tl ∧ isWs c = false ∧ c ≠ ']' := by
  cases v with
  | undefined => exact ⟨'n', _, by rw [printValue], by decide, by decide⟩
  | null => exact ⟨'n', _, by rw [printValue], by decide, by decide⟩
  | bool b => cases b
              · exact ⟨'f', _, by rw [printValue], by decide, by decide⟩
              · exact ⟨'t', _, by rw [printValue], by decide, by decide⟩
  | num n =>
    obtain ⟨c, tl, h, hc⟩ := printInt_head n
    refine ⟨c, tl, by simp [printValue, h], ?_, ?_⟩
    · rcases hc with hc | hc
      · exact isDigit_not_ws hc
      · subst hc; decide
    · rcases hc with hc | hc
      · exact isDigit_ne hc (by decide)
      · subst hc; decide
  | str s => exact ⟨'"', escapeChars s.data ++ ['"'], by rw [printValue, quote]; rfl, by decide, by decide⟩
  | arr items =>
    cases items with
    | nil => exact ⟨'[', _, by rw [printValue], by decide, by decide⟩
    | cons x xs =>
      exact ⟨'[', printValue x ++ printItems xs, by rw [printValue]; rfl, by decide, by decide⟩
  | obj fields => exact ⟨'{', _, by rw [printValue], by decide, by decide⟩

theorem skipWs_cons {c : Char} (h : isWs c = false) (tl : List Char) :
    skipWs (c :: tl) = c :: tl := by
  simp [skipWs, h]

theorem define_append (acc : JsObject) (k : String) (v : JsVal)
    (h : k ∉ acc.map Prod.fst) : JsObject.define acc k v = acc ++ [(k, v)] := by
  induction acc with
  | nil => rfl
  | cons p acc ih =>
    obtain ⟨k', w⟩ := p
    simp only [List.map_cons, List.mem_cons, not_or] at h
    have hne : ¬ k' = k := fun e => h.1 e.symm
    simp [JsObject.define, hne, ih h.2]

theorem foldl_define (ms acc : JsObject) (h : ((acc ++ ms).map Prod.fst).Nodup) :
    ms.foldl (fun o m => JsObject.define o m.1 m.2) acc = acc ++ ms := by
  induction ms generalizing acc with
  | nil => simp
  | cons m ms ih =>
    obtain ⟨k, v⟩ := m
    have hk : k ∉ acc.map Prod.fst := by
      simp only [List.map_append, List.map_cons] at h
      have := (List.nodup_append.mp h).2.2
      intro hmem
      exact this hmem (List.mem_cons_self _ _)
    simp only [List.foldl_cons]
    rw [define_append acc k v hk, ih]
    · simp
    · simpa using h

theorem buildObject_nodup (ms : JsObject) (h : (ms.map Prod.fst).Nodup) :
    buildObject ms = ms := by
  unfold buildObject
  rw [foldl_define ms [] (by simpa using h)]
  rfl

theorem printMembers_cons (first : Bool) (k : String) (v : JsVal) (rest : List (String × JsVal))
    (hv : v.serializable = true) :
    printMembers first ((k, v) :: rest)
      = (if first then [] else [',']) ++ quote k ++ ':' :: printValue v ++ printMembers false rest := by
  cases v <;> first | rfl | (simp [JsVal.serializable] at hv)

theorem printMembers_delimited (fs : List (String × JsVal)) (hfs : membersSerializable fs = true)
    (rest : List Char) : Delimited (printMembers false fs ++ rest) := by
  cases fs with
  | nil => intro c hc; simp [printMembers] at hc; exact Or.inr (Or.inr hc.symm)
  | cons p fs =>
    obtain ⟨k, v⟩ := p
    simp only [membersSerializable, Bool.and_eq_true] at hfs
    rw [printMembers_cons false k v fs hfs.1]
    intro c hc
    simp at hc
    exact Or.inl hc.symm

theorem printItems_delimited (xs : List JsVal) (rest : List Char) :
    Delimited (printItems xs ++ rest) := by
  cases xs with
  | nil => intro c hc; simp [printItems] at hc; exact Or.inr (Or.inl hc.symm)
  | cons x xs => intro c hc; simp [printItems] at hc; exact Or.inl hc.symm

theorem parseValue_number (f : Nat) (c : Char) (tl : List Char)
    (hc : c.isDigit = true ∨ c = '-') : parseValue (f + 1) (c :: tl) = parseNumber (c :: tl) := by
  have hws : isWs c = false := by
    rcases hc with h | h
    · exact isDigit_not_ws h
    · subst h; decide
  rw [parseValue.eq_def]
  simp only [skipWs_cons hws]
  rw [if_pos hc]

theorem parseValue_string (f : Nat) (tl : List Char) :
    parseValue (f + 1) ('"' :: tl) =
      match parseString tl [] with
      | .ok s rest => .ok (.str s) rest
      | .malformed => .malformed
      | .outside => .outside := by
  rw [parseValue.eq_def]
  simp only [skipWs_cons (show isWs '"' = false by decide)]
  simp +decide

theorem parseValue_null (f : Nat) (tl : List Char) :
    parseValue (f + 1) ('n' :: 'u' :: 'l' :: 'l' :: tl) = .ok .null tl := by
  rw [parseValue.eq_def]
  simp only [skipWs_cons (show isWs 'n' = false by decide)]
  simp +decide [dropLiteral]

theorem parseValue_true (f : Nat) (tl : List Char) :
    parseValue (f + 1) ('t' :: 'r' :: 'u' :: 'e' :: tl) = .ok (.bool true) tl := by
  rw [parseValue.eq_def]
  simp only [skipWs_cons (show isWs 't' = false by decide)]
  simp +decide [dropLiteral]

theorem parseValue_false (f : Nat) (tl : List Char) :
    parseValue (f + 1) ('f' :: 'a' :: 'l' :: 's' :: 'e' :: tl) = .ok (.bool false) tl := by
  rw [parseValue.eq_def]
  simp only [skipWs_cons (show isWs 'f' = false by decide)]
  simp +decide [dropLiteral]

theorem parseValue_emptyArray (f : Nat) (tl : List Char) :
    parseValue (f + 1) ('[' :: ']' :: tl) = .ok (.arr []) tl := by
  rw [parseValue.eq_def]
  simp only [skipWs_cons (show isWs '[' = false by decide),
    skipWs_cons (show isWs ']' = false by decide)]
  simp +decide

theorem parseValue_array (f : Nat) (c : Char) (tl : List Char) (hws : isWs c = false)
    (hc : c ≠ ']') :
    parseValue (f + 1) ('[' :: c :: tl) =
      match parseItems f (c :: tl) with
      | .ok items rest => .ok (.arr items) rest
      | .malformed => .malformed
      | .outside => .outside := by
  rw [parseValue.eq_def]
  simp only [skipWs_cons (show isWs '[' = false by decide), skipWs_cons hws]
  simp +decide [hc]

theorem parseValue_emptyObject (f : Nat) (tl : List Char) :
    parseValue (f + 1) ('{' :: '}' :: tl) = .ok (.obj []) tl := by
  rw [parseValue.eq_def]
  simp only [skipWs_cons (show isWs '{' = false by decide),
    skipWs_cons (show isWs '}' = false by decide)]
  simp +decide

theorem parseValue_object (f : Nat) (tl : List Char) :
    parseValue (f + 1) ('{' :: '"' :: tl) =
      match parseMembers f ('"' :: tl) with
      | .ok members rest => .ok (.obj (buildObject members)) rest
      | .malformed => .malformed
      | .outside => .outside := by
  rw [parseValue.eq_def]
  simp only [skipWs_cons (show isWs '{' = false by decide),
    skipWs_cons (show isWs '"' = false by decide)]
  simp +decide

theorem parseItems_step (f : Nat) (cs : List Char) (v : JsVal) (c : Char) (tl : List Char)
    (hv : parseValue f cs = .ok v (c :: tl)) (hws : isWs c = false) :
    parseItems (f + 1) cs =
      if c = ']' then .ok [v] tl
      else if c = ',' then
        match parseItems f tl with
        | .ok vs rest => .ok (v :: vs) rest
        | .malformed => .malformed
        | .outside => .outside
      else .malformed := by
  rw [parseItems.eq_def]
  simp only [hv, skipWs_cons hws]

theorem parseMembers_step (f : Nat) (k : String) (v : JsVal) (cs : List Char) (c : Char)
    (tl : List Char) (hv : parseValue f cs = .ok v (c :: tl)) (hws : isWs c = false) :
    parseMembers (f + 1) (quote k ++ ':' :: cs) =
      if c = '}' then .ok [(k, v)] tl
      else if c = ',' then
        match parseMembers f tl with
        | .ok ms rest => .ok ((k, v) :: ms) rest
        | .malformed => .malformed
        | .outside => .outside
      else .malformed := by
  rw [parseMembers.eq_def]
  have hq : quote k ++ ':' :: cs = '"' :: (escapeChars k.data ++ '"' :: ':' :: cs) := by
    simp [quote]
  simp only [hq, skipWs_cons (show isWs '"' = false by decide), parseString_quoted,
    skipWs_cons (show isWs ':' = false by decide), hv, skipWs_cons hws]
  simp

mutual
/-- Reading back the text of a serializable value gives the value and leaves the text
that followed it. -/
theorem parseValue_printValue : (v : JsVal) → v.serializable = true → (fuel : Nat) →
    (rest : List Char) → v.weight ≤ fuel → Delimited rest →
    parseValue fuel (printValue v ++ rest) = .ok v rest
  | .undefined, hv, _, _, _, _ => by simp [JsVal.serializable] at hv
  | .null, _, fuel, rest, hf, _ => by
    obtain ⟨f, rfl⟩ : ∃ f, fuel = f + 1 := ⟨fuel - 1, by simp [JsVal.weight] at hf; omega⟩
    exact parseValue_null f rest
  | .bool true, _, fuel, rest, hf, _ => by
    obtain ⟨f, rfl⟩ : ∃ f, fuel = f + 1 := ⟨fuel - 1, by simp [JsVal.weight] at hf; omega⟩
    exact parseValue_true f rest
  | .bool false, _, fuel, rest, hf, _ => by
    obtain ⟨f, rfl⟩ : ∃ f, fuel = f + 1 := ⟨fuel - 1, by simp [JsVal.weight] at hf; omega⟩
    exact parseValue_false f rest
  | .num n, hv, fuel, rest, hf, hr => by
    obtain ⟨f, rfl⟩ : ∃ f, fuel = f + 1 := ⟨fuel - 1, by simp [JsVal.weight] at hf; omega⟩
    have hn : n.natAbs ≤ maxSafeInteger := by simpa [JsVal.serializable] using hv
    obtain ⟨c, tl, hc, hd⟩ := printInt_head n
    have h := parseNumber_printInt n rest hn hr
    rw [printValue]
    rw [hc] at h ⊢
    rw [List.cons_append] at h ⊢
    rw [parseValue_number f c _ hd, h]
  | .str s, _, fuel, rest, hf, _ => by
    obtain ⟨f, rfl⟩ : ∃ f, fuel = f + 1 := ⟨fuel - 1, by simp [JsVal.weight] at hf; omega⟩
    have hq : printValue (.str s) ++ rest = '"' :: (escapeChars s.data ++ '"' :: rest) := by
      simp [printValue, quote]
    rw [hq, parseValue_string, parseString_quoted]
  | .arr [], _, fuel, rest, hf, _ => by
    obtain ⟨f, rfl⟩ : ∃ f, fuel = f + 1 := ⟨fuel - 1, by simp [JsVal.weight] at hf; omega⟩
    exact parseValue_emptyArray f rest
  | .arr (x :: xs), hv, fuel, rest, hf, hr => by
    obtain ⟨f, rfl⟩ : ∃ f, fuel = f + 1 := ⟨fuel - 1, by simp [JsVal.weight] at hf; omega⟩
    have hw : itemsWeight (x :: xs) ≤ f := by simp [JsVal.weight] at hf; omega
    have hs : itemsSerializable (x :: xs) = true := by simpa [JsVal.serializable] using hv
    have hi := parseItems_itemsText (x :: xs) (List.cons_ne_nil _ _) hs f rest hw hr
    obtain ⟨c, tl, hc, hws, hne⟩ := printValue_head x
    have ht : printValue (.arr (x :: xs)) ++ rest = '[' :: c :: (tl ++ (printItems xs ++ rest)) := by
      simp [printValue, hc]
    have ht2 : itemsText (x :: xs) ++ rest = c :: (tl ++ (printItems xs ++ rest)) := by
      simp [itemsText, hc]
    rw [ht, parseValue_array f c _ hws hne, ← ht2, hi]
  | .obj [], _, fuel, rest, hf, _ => by
    obtain ⟨f, rfl⟩ : ∃ f, fuel = f + 1 := ⟨fuel - 1, by simp [JsVal.weight] at hf; omega⟩
    exact parseValue_emptyObject f rest
  | .obj ((k, v) :: fs), hv, fuel, rest, hf, hr => by
    obtain ⟨f, rfl⟩ : ∃ f, fuel = f + 1 := ⟨fuel - 1, by simp [JsVal.weight] at hf; omega⟩
    have hw : membersWeight ((k, v) :: fs) ≤ f := by simp [JsVal.weight] at hf; omega
    simp only [JsVal.serializable, Bool.and_eq_true, decide_eq_true_eq] at hv
    have hm := parseMembers_membersText ((k, v) :: fs) (List.cons_ne_nil _ _) hv.1 f rest hw hr
    have hv1 : v.serializable = true := by
      have := hv.1
      simp only [membersSerializable, Bool.and_eq_true] at this
      exact this.1
    have ht : printValue (.obj ((k, v) :: fs)) ++ rest
        = '{' :: '"' :: (escapeChars k.data ++ '"' :: ':' :: (printValue v ++ (printMembers false fs ++ rest))) := by
      rw [printValue, printMembers_cons true k v fs hv1]
      simp [quote]
    have ht2 : membersText ((k, v) :: fs) ++ rest
        = '"' :: (escapeChars k.data ++ '"' :: ':' :: (printValue v ++ (printMembers false fs ++ rest))) := by
      simp [membersText, quote]
    rw [ht, parseValue_object, ← ht2, hm]
    simp only [buildObject_nodup _ hv.2]
/-- Reading back the elements of a non-empty array. -/
theorem parseItems_itemsText : (l : List JsVal) → l ≠ [] → itemsSerializable l = true →
    (fuel : Nat) → (rest : List Char) → itemsWeight l ≤ fuel → Delimited rest →
    parseItems fuel (itemsText l ++ rest) = .ok l rest
  | [], h, _, _, _, _, _ => absurd rfl h
  | [x], _, hs, fuel, rest, hf, _ => by
    obtain ⟨f, rfl⟩ : ∃ f, fuel = f + 1 := ⟨fuel - 1, by simp [itemsWeight] at hf; omega⟩
    have hx : x.serializable = true := by simpa [itemsSerializable] using hs
    have hw : x.weight ≤ f := by simp [itemsWeight] at hf; omega
    have hd : Delimited (']' :: rest) := fun c hc => Or.inr (Or.inl (by simpa using hc.symm))
    have hp := parseValue_printValue x hx f (']' :: rest) hw hd
    have ht : itemsText [x] ++ rest = printValue x ++ ']' :: rest := by
      simp [itemsText, printItems]
    rw [ht, parseItems_step f _ x ']' rest hp (by decide)]
    simp
  | x :: y :: ys, _, hs, fuel, rest, hf, hr => by
    obtain ⟨f, rfl⟩ : ∃ f, fuel = f + 1 := ⟨fuel - 1, by simp [itemsWeight] at hf; omega⟩
    simp only [itemsSerializable, Bool.and_eq_true] at hs
    have hw : x.weight ≤ f := by simp [itemsWeight] at hf; omega
    have hw2 : itemsWeight (y :: ys) ≤ f := by simp [itemsWeight] at hf ⊢; omega
    have hs2 : itemsSerializable (y :: ys) = true := by simp [itemsSerializable, hs.2]
    have hd : Delimited (',' :: (itemsText (y :: ys) ++ rest)) :=
      fun c hc => Or.inl (by simpa using hc.symm)
    have hp := parseValue_printValue x hs.1 f _ hw hd
    have hi := parseItems_itemsText (y :: ys) (List.cons_ne_nil _ _) hs2 f rest hw2 hr
    have ht : itemsText (x :: y :: ys) ++ rest
        = printValue x ++ ',' :: (itemsText (y :: ys) ++ rest) := by
      simp [itemsText, printItems]
    rw [ht, parseItems_step f _ x ',' _ hp (by decide), hi]
    simp +decide
/-- Reading back the members of a non-empty object. -/
theorem parseMembers_membersText : (l : List (String × JsVal)) → l ≠ [] →
    membersSerializable l = true → (fuel : Nat) → (rest : List Char) →
    membersWeight l ≤ fuel → Delimited rest →
    parseMembers fuel (membersText l ++ rest) = .ok l rest
  | [], h, _, _, _, _, _ => absurd rfl h
  | [(k, v)], _, hs, fuel, rest, hf, _ => by
    obtain ⟨f, rfl⟩ : ∃ f, fuel = f + 1 := ⟨fuel - 1, by simp [membersWeight] at hf; omega⟩
    have hx : v.serializable = true := by simpa [membersSerializable] using hs
    have hw : v.weight ≤ f := by simp [membersWeight] at hf; omega
    have hd : Delimited ('}' :: rest) := fun c hc => Or.inr (Or.inr (by simpa using hc.symm))
    have hp := parseValue_printValue v hx f ('}' :: rest) hw hd
    have ht : membersText [(k, v)] ++ rest = quote k ++ ':' :: (printValue v ++ '}' :: rest) := by
      simp [membersText, printMembers]
    rw [ht, parseMembers_step f k v _ '}' rest hp (by decide)]
    simp
  | (k, v) :: (k2, v2) :: ms, _, hs, fuel, rest, hf, hr => by
    obtain ⟨f, rfl⟩ : ∃ f, fuel = f + 1 := ⟨fuel - 1, by simp [membersWeight] at hf; omega⟩
    simp only [membersSerializable, Bool.and_eq_true] at hs
    have hw : v.weight ≤ f := by simp [membersWeight] at hf; omega
    have hw2 : membersWeight ((k2, v2) :: ms) ≤ f := by simp [membersWeight] at hf ⊢; omega
    have hs2 : membersSerializable ((k2, v2) :: ms) = true := by
      simp [membersSerializable, hs.2]
    have hd : Delimited (',' :: (membersText ((k2, v2) :: ms) ++ rest)) :=
      fun c hc => Or.inl (by simpa using hc.symm)
    have hp := parseValue_printValue v hs.1 f _ hw hd
    have hi := parseMembers_membersText ((k2, v2) :: ms) (List.cons_ne_nil _ _) hs2 f rest hw2 hr
    have ht : membersText ((k, v) :: (k2, v2) :: ms) ++ rest
        = quote k ++ ':' :: (printValue v ++ ',' :: (membersText ((k2, v2) :: ms) ++ rest)) := by
      simp [membersText, printMembers_cons false k2 v2 ms hs.2.1]
    rw [ht, parseMembers_step f k v _ ',' _ hp (by decide), hi]
    simp +decide
end

theorem quote_length (k : String) : 2 ≤ (quote k).length := by
  simp [quote]

mutual
/-- The fuel a value takes is no more than the length of its text. -/
theorem weight_le_length : (v : JsVal) → v.serializable = true →
    v.weight ≤ (printValue v).length
  | .undefined, hv => by simp [JsVal.serializable] at hv
  | .null, _ => by simp [JsVal.weight, printValue]
  | .bool true, _ => by simp [JsVal.weight, printValue]
  | .bool false, _ => by simp [JsVal.weight, printValue]
  | .num n, _ => by
    obtain ⟨c, tl, hc, _⟩ := printInt_head n
    simp [JsVal.weight, printValue, hc]
  | .str s, _ => by simp [JsVal.weight, printValue, quote]
  | .arr [], _ => by simp [JsVal.weight, printValue, itemsWeight]
  | .arr (x :: xs), hv => by
    have hs : x.serializable = true ∧ itemsSerializable xs = true := by
      simpa [JsVal.serializable, itemsSerializable] using hv
    have h1 := weight_le_length x hs.1
    have h2 := itemsWeight_lt_length xs hs.2
    simp only [JsVal.weight, itemsWeight, printValue, List.length_cons, List.length_append]
    omega
  | .obj [], _ => by simp [JsVal.weight, printValue, membersWeight]
  | .obj ((k, v) :: fs), hv => by
    simp only [JsVal.serializable, membersSerializable, Bool.and_eq_true] at hv
    have h1 := weight_le_length v hv.1.1
    have h2 := membersWeight_lt_length fs hv.1.2
    have h3 := quote_length k
    rw [printValue, printMembers_cons true k v fs hv.1.1]
    simp only [JsVal.weight, membersWeight, List.length_cons, List.length_append, if_true,
      List.nil_append]
    omega
/-- The fuel the elements take is less than the length of their text. -/
theorem itemsWeight_lt_length : (l : List JsVal) → itemsSerializable l = true →
    itemsWeight l + 1 ≤ (printItems l).length
  | [], _ => by simp [itemsWeight, printItems]
  | x :: xs, hs => by
    simp only [itemsSerializable, Bool.and_eq_true] at hs
    have h1 := weight_le_length x hs.1
    have h2 := itemsWeight_lt_length xs hs.2
    simp only [itemsWeight, printItems, List.length_cons, List.length_append]
    omega
/-- The fuel the members take is less than the length of their text. -/
theorem membersWeight_lt_length : (l : List (String × JsVal)) → membersSerializable l = true →
    membersWeight l + 1 ≤ (printMembers false l).length
  | [], _ => by simp [membersWeight, printMembers]
  | (k, v) :: fs, hs => by
    simp only [membersSerializable, Bool.and_eq_true] at hs
    have h1 := weight_le_length v hs.1
    have h2 := membersWeight_lt_length fs hs.2
    have h3 := quote_length k
    rw [printMembers_cons false k v fs hs.1]
    simp only [membersWeight, List.length_cons, List.length_append]
    omega
end

/-- The JSON round trip: `JSON.parse(JSON.stringify(v))` is `v` for a serializable
`v`. -/
theorem parse_stringify (v : JsVal) (hv : v.serializable = true) :
    ∃ text, JSON.stringify v = some text ∧ JSON.parse text = .value v := by
  refine ⟨String.mk (printValue v), ?_, ?_⟩
  · cases v <;> first | rfl | (simp [JsVal.serializable] at hv)
  · have hd : Delimited [] := fun c hc => by simp at hc
    have h := parseValue_printValue v hv ((printValue v).length + 1) [] 
      (Nat.le_succ_of_le (weight_le_length v hv)) hd
    rw [List.append_nil] at h
    simp only [JSON.parse, String.length, h, skipWs, if_true]

/-! ## `sendTx`: the confirmation loop -/

theorem poll_done (server : RpcServer) (hash : String) (fuel : Nat)
    (resp : GetTransactionResponse) (asked : List String)
    (h : resp.status ≠ TX_STATUS.NOT_FOUND) :
    poll server hash fuel resp asked = some ⟨finish hash resp, asked⟩ := by
  cases fuel <;> simp [poll, h]

theorem poll_again (server : RpcServer) (hash : String) (fuel : Nat)
    (resp next : GetTransactionResponse) (asked : List String)
    (h : resp.status = TX_STATUS.NOT_FOUND)
    (hq : server.getTransaction asked.length hash = .ok next) :
    poll server hash (fuel + 1) resp asked = poll server hash fuel next (asked ++ [hash]) := by
  simp [poll, h, hq]

/-- The loop from any point of an `AnswersAfter` run: `d` more queries end it. -/
theorem poll_answersAfter (server : RpcServer) (hash : String) (n : Nat)
    (final : GetTransactionResponse)
    (hnf : ∀ i, i < n → ∃ r, server.getTransaction i hash = .ok r ∧ r.status = TX_STATUS.NOT_FOUND)
    (hfin : server.getTransaction n hash = .ok final)
    (hstatus : final.status ≠ TX_STATUS.NOT_FOUND) :
    ∀ (d fuel : Nat) (resp : GetTransactionResponse) (asked : List String),
      asked.length + d = n + 1 → 1 ≤ asked.length →
      server.getTransaction (asked.length - 1) hash = .ok resp → d ≤ fuel →
      poll server hash fuel resp asked
        = some ⟨finish hash final, asked ++ List.replicate d hash⟩ := by
  intro d
  induction d with
  | zero =>
    intro fuel resp asked hlen _ hresp _
    have hidx : asked.length - 1 = n := by omega
    rw [hidx, hfin] at hresp
    cases hresp
    rw [poll_done server hash fuel final asked hstatus]
    simp
  | succ d ih =>
    intro fuel resp asked hlen hpos hresp hfuel
    obtain ⟨f, rfl⟩ : ∃ f, fuel = f + 1 := ⟨fuel - 1, by omega⟩
    obtain ⟨r, hr, hrs⟩ := hnf (asked.length - 1) (by omega)
    have hrs' : resp.status = TX_STATUS.NOT_FOUND := by
      rw [hr] at hresp
      cases hresp
      exact hrs
    have hnext : ∃ next, server.getTransaction asked.length hash = .ok next := by
      by_cases hlt : asked.length < n
      · obtain ⟨r', hr', _⟩ := hnf asked.length hlt
        exact ⟨r', hr'⟩
      · have : asked.length = n := by omega
        exact ⟨final, this ▸ hfin⟩
    obtain ⟨next, hq⟩ := hnext
    rw [poll_again server hash f resp next asked hrs' hq]
    rw [ih f next (asked ++ [hash]) (by simp; omega) (by simp) (by simpa using hq) (by omega)]
    simp [List.replicate_succ]

/-- A run of `sendTx` against a server that answers `NOT_FOUND` `n` times and then
`final`: with fuel for `n` turns it ends, after `n + 1` queries for the handle, with
what `finish` makes of `final`. -/
theorem sendTx_answersAfter (server : RpcServer) (hash : String) (n : Nat)
    (final : GetTransactionResponse) (h : AnswersAfter server hash n final)
    (hstatus : final.status ≠ TX_STATUS.NOT_FOUND) (fuel : Nat) (hfuel : n ≤ fuel) :
    sendTx server fuel = some ⟨finish hash final, List.replicate (n + 1) hash⟩ := by
  obtain ⟨⟨e, hsend⟩, hnf, hfin⟩ := h
  have hfirst : ∃ first, server.getTransaction 0 hash = .ok first := by
    by_cases h0 : 0 < n
    · obtain ⟨r, hr, _⟩ := hnf 0 h0
      exact ⟨r, hr⟩
    · have : n = 0 := by omega
      exact ⟨final, this ▸ hfin⟩
  obtain ⟨first, h0⟩ := hfirst
  have hp := poll_answersAfter server hash n final hnf hfin hstatus n fuel first [hash]
    (by simp; omega) (by simp) (by simpa using h0) hfuel
  simp only [sendTx, hsend, h0]
  rw [if_pos trivial, hp]
  simp [List.replicate_succ]

/-! ## `sendTx`: the decoded result -/

theorem decodeEntries_structured (entries : List (String × ScNative)) (data : JsObject) :
    decodeEntries (entries.map fun e => ScItem.entry e.1 e.2) data
      = .ok (entries.foldl (fun d e => decodeEntry d e.1 e.2) data) := by
  induction entries generalizing data with
  | nil => rfl
  | cons e rest ih =>
    simp only [List.map_cons, decodeEntries, List.foldl_cons]
    exact ih _

theorem finish_structured (hash : String) (meta : JsVal) (entries : List (String × ScNative))
    (resultXdr : String) (hmeta : meta.truthy = true) :
    finish hash ⟨TX_STATUS.SUCCESS, meta, some (structured entries), resultXdr⟩
      = .ok (.obj (entries.foldl (fun d e => decodeEntry d e.1 e.2) [("txHash", .str hash)])) := by
  simp only [finish, decodeSuccess, hmeta, structured, typeOf, TYPES.Boolean, TYPES.Array,
    decodeEntries_structured]
  simp +decide [Except.map]

theorem scriptedServer_answers (hash : String) (n : Nat) (final : GetTransactionResponse) :
    AnswersAfter (scriptedServer hash n final) hash n final := by
  refine ⟨⟨.undefined, rfl⟩, ?_, ?_⟩
  · intro i hi
    exact ⟨⟨TX_STATUS.NOT_FOUND, .undefined, none, ""⟩, by simp [scriptedServer, hi], rfl⟩
  · simp [scriptedServer]

theorem field?_define (d : JsObject) (k name : String) (v : JsVal) :
    JsObject.field? (JsObject.define d k v) name
      = if k = name then some v else JsObject.field? d name := by
  induction d with
  | nil => simp [JsObject.define, JsObject.field?]
  | cons p rest ih =>
    obtain ⟨k', w⟩ := p
    by_cases h : k' = k
    · subst h
      by_cases h2 : k' = name <;> simp [JsObject.define, JsObject.field?, h2]
    · by_cases h2 : k' = name
      · subst h2
        have h3 : ¬ k = k' := fun e => h e.symm
        simp [JsObject.define, JsObject.field?, h, h3]
      · simp [JsObject.define, JsObject.field?, h, h2, ih]

theorem field?_decodeEntry (d : JsObject) (k name : String) (v : ScNative)
    (h : k = name → v.copied = false) :
    JsObject.field? (decodeEntry d k v) name = JsObject.field? d name := by
  cases v <;> simp only [decodeEntry] <;> try rfl
  all_goals
    have hk : ¬ k = name := fun e => by simpa [ScNative.copied] using h e
    simp only [JsObject.assign]
    split_ifs
    · rfl
    · rw [field?_define, if_neg hk]

theorem field?_foldl_decodeEntry (entries : List (String × ScNative)) (d : JsObject)
    (name : String) (h : ∀ e ∈ entries, e.1 = name → e.2.copied = false) :
    JsObject.field? (entries.foldl (fun d e => decodeEntry d e.1 e.2) d) name
      = JsObject.field? d name := by
  induction entries generalizing d with
  | nil => rfl
  | cons e rest ih =>
    simp only [List.foldl_cons]
    rw [ih _ (fun e' he' => h e' (List.mem_cons_of_mem _ he'))]
    exact field?_decodeEntry d e.1 name e.2 (h e (List.mem_cons_self _ _))

theorem decodeEntry_skip (d : JsObject) (k : String) (v : ScNative) (h : v.copied = false) :
    decodeEntry d k v = d := by
  cases v <;> first | rfl | (simp [ScNative.copied] at h)

theorem specField_skip (k : String) (v : ScNative) (h : v.copied = false) :
    specField (k, v) = none := by
  cases v <;> first | rfl | (simp [ScNative.copied] at h)

theorem decodeEntry_copied (d : JsObject) (k : String) (v : ScNative) (h : v.copied = true)
    (hk : k ∉ d.map Prod.fst) (hp : k ≠ "__proto__") :
    ∃ w, specField (k, v) = some (k, w) ∧ decodeEntry d k v = d ++ [(k, w)] := by
  cases v <;> first
    | exact ⟨_, rfl, by
        simp only [decodeEntry, JsObject.assign, if_neg hp]
        exact define_append d k _ hk⟩
    | (simp [ScNative.copied] at h)

theorem foldl_decodeEntry_distinct (entries : List (String × ScNative)) (d : JsObject)
    (hproto : ∀ e ∈ entries, e.1 ≠ "__proto__")
    (hnodup : (d.map Prod.fst ++ entries.map Prod.fst).Nodup) :
    entries.foldl (fun d e => decodeEntry d e.1 e.2) d = d ++ entries.filterMap specField := by
  induction entries generalizing d with
  | nil => simp
  | cons e rest ih =>
    obtain ⟨k, v⟩ := e
    have hk : k ∉ d.map Prod.fst := by
      have := (List.nodup_append.mp hnodup).2.2
      intro hmem
      exact this hmem (by simp)
    have hp : k ≠ "__proto__" := hproto (k, v) (List.mem_cons_self _ _)
    have hrest : ∀ e ∈ rest, e.1 ≠ "__proto__" := fun e he => hproto e (List.mem_cons_of_mem _ he)
    simp only [List.foldl_cons]
    cases hv : v.copied with
    | false =>
      have hsub : (d.map Prod.fst ++ rest.map Prod.fst).Nodup := by
        refine hnodup.sublist ?_
        simp only [List.map_cons]
        exact List.Sublist.append_left (List.sublist_cons_self _ _) _
      rw [decodeEntry_skip d k v hv, ih d hrest hsub]
      simp [List.filterMap_cons, specField_skip k v hv]
    | true =>
      obtain ⟨w, hw, hd⟩ := decodeEntry_copied d k v hv hk hp
      rw [hd, ih _ hrest (by simpa using hnodup)]
      simp [List.filterMap_cons, hw]

theorem success_ne_notFound : TX_STATUS.SUCCESS ≠ TX_STATUS.NOT_FOUND := by decide

/-! ## C1: polling until the first `SUCCESS` -/

/-- Claim C1, amended. The backend answers the submission with `PENDING` and the
handle `hash`, the status query with `NOT_FOUND` exactly `n` times, and then with
`SUCCESS` carrying result metadata and a structured return value in which no numeric or
byte-sequence entry is keyed `txHash`. Then `sendTx` ends on any fuel of at least `n`
turns, has issued exactly `n + 1` status queries, all for `hash`, and returns a mapping
whose field `txHash` is `hash`. -/
theorem sendTx_polls_until_success (server : RpcServer) (hash : String) (n : Nat)
    (meta : JsVal) (entries : List (String × ScNative)) (resultXdr : String)
    (h : AnswersAfter server hash n
      ⟨TX_STATUS.SUCCESS, meta, some (structured entries), resultXdr⟩)
    (hmeta : meta.truthy = true)
    (hkeys : ∀ e ∈ entries, e.1 = "txHash" → e.2.copied = false)
    (fuel : Nat) (hfuel : n ≤ fuel) :
    ∃ data, sendTx server fuel = some ⟨.ok (.obj data), List.replicate (n + 1) hash⟩
      ∧ JsObject.field? data "txHash" = some (.str hash) := by
  refine ⟨entries.foldl (fun d e => decodeEntry d e.1 e.2) [("txHash", .str hash)], ?_, ?_⟩
  · rw [sendTx_answersAfter server hash n _ h success_ne_notFound fuel hfuel,
      finish_structured hash meta entries resultXdr hmeta]
  · rw [field?_foldl_decodeEntry entries _ "txHash" hkeys]
    simp [JsObject.field?]

/-- Claim C1, witness: the specification's case `n = 2`, with the entries `amount = 5`
and `name = bytes("X")`. -/
theorem sendTx_polls_until_success_witness :
    ∃ data,
      sendTx (scriptedServer "H" 2 ⟨TX_STATUS.SUCCESS, .str "AAAAAw==", some (structured
          [("amount", .number 5), ("name", .uint8Array [88])]), ""⟩) 2
        = some ⟨.ok (.obj data), ["H", "H", "H"]⟩
      ∧ JsObject.field? data "txHash" = some (.str "H") :=
  sendTx_polls_until_success _ "H" 2 (.str "AAAAAw==")
    [("amount", .number 5), ("name", .uint8Array [88])] ""
    (scriptedServer_answers _ _ _) rfl (by decide) 2 (Nat.le_refl 2)

/-- Claim C1, as stated, fails. A backend answers `PENDING`, `NOT_FOUND` twice, then
`SUCCESS` with a structured return value but without result metadata: `sendTx` throws
on every fuel that lets it end. Another answers the same with metadata and the entry
`txHash = 7`: the field `txHash` of the result is `7`, not the handle. -/
theorem sendTx_polls_claim_fails :
    (∀ fuel, 2 ≤ fuel →
      sendTx (scriptedServer "H" 2 ⟨TX_STATUS.SUCCESS, .undefined, some (structured
          [("amount", .number 5)]), ""⟩) fuel
        = some ⟨.error (.value (.str "Empty .resultMetaXDR in getTransaction response")),
            ["H", "H", "H"]⟩)
    ∧ sendTx (scriptedServer "H" 2 ⟨TX_STATUS.SUCCESS, .str "AAAAAw==", some (structured
          [("txHash", .number 7)]), ""⟩) 2
        = some ⟨.ok (.obj [("txHash", .num 7)]), ["H", "H", "H"]⟩ := by
  refine ⟨fun fuel hfuel => ?_, rfl⟩
  rw [sendTx_answersAfter _ "H" 2 _ (scriptedServer_answers _ _ _) (by decide) fuel hfuel]
  rfl

/-! ## C2: the decoded mapping -/

/-- Claim C2, amended. A transaction with handle `hash` is confirmed with result
metadata, and its return value is a list of entries with pairwise distinct keys, none
equal to `txHash` or `__proto__`. Then the result of `sendTx` is exactly the mapping of
the specification: `txHash = hash`, then `key = value` for each numeric entry and
`key = UTF-8 text` for each byte-sequence entry, and no field for any other entry. For
the entries `amount = 5` and `name = bytes("X")` that mapping is
`{ txHash: hash, amount: 5, name: "X" }`. -/
theorem sendTx_result_is_specMapping (server : RpcServer) (hash : String) (n : Nat)
    (meta : JsVal) (entries : List (String × ScNative)) (resultXdr : String)
    (h : AnswersAfter server hash n
      ⟨TX_STATUS.SUCCESS, meta, some (structured entries), resultXdr⟩)
    (hmeta : meta.truthy = true)
    (hdistinct : (entries.map Prod.fst).Nodup)
    (hkeys : ∀ e ∈ entries, e.1 ≠ "txHash" ∧ e.1 ≠ "__proto__")
    (fuel : Nat) (hfuel : n ≤ fuel) :
    sendTx server fuel
        = some ⟨.ok (.obj (specMapping hash entries)), List.replicate (n + 1) hash⟩
      ∧ specMapping hash [("amount", .number 5), ("name", .uint8Array [88])]
        = [("txHash", .str hash), ("amount", .num 5), ("name", .str "X")] := by
  refine ⟨?_, rfl⟩
  rw [sendTx_answersAfter server hash n _ h success_ne_notFound fuel hfuel,
    finish_structured hash meta entries resultXdr hmeta,
    foldl_decodeEntry_distinct entries _ (fun e he => (hkeys e he).2)]
  · rfl
  · simp only [List.map_cons, List.map_nil, List.singleton_append, List.nodup_cons]
    exact ⟨fun hmem => by
      obtain ⟨e, he, hk⟩ := List.mem_map.mp hmem
      exact (hkeys e he).1 hk, hdistinct⟩

/-- Claim C2, witness: the entries `amount = 5`, `name = bytes("X")` and one entry of
another type, confirmed at the first query. -/
theorem sendTx_result_is_specMapping_witness :
    sendTx (scriptedServer "H" 0 ⟨TX_STATUS.SUCCESS, .str "AAAAAw==", some (structured
        [("amount", .number 5), ("name", .uint8Array [88]), ("owner", .object)]), ""⟩) 0
      = some ⟨.ok (.obj (specMapping "H"
          [("amount", .number 5), ("name", .uint8Array [88]), ("owner", .object)])), ["H"]⟩
    ∧ specMapping "H" [("amount", .number 5), ("name", .uint8Array [88])]
      = [("txHash", .str "H"), ("amount", .num 5), ("name", .str "X")] :=
  sendTx_result_is_specMapping _ "H" 0 (.str "AAAAAw==")
    [("amount", .number 5), ("name", .uint8Array [88]), ("owner", .object)] ""
    (scriptedServer_answers _ _ _) rfl (by decide) (by decide) 0 (Nat.le_refl 0)

/-- Claim C2, as stated, fails. With the single entry `__proto__ = 5` (distinct keys,
none equal to `txHash`) the result has no field `__proto__`, where the claim gives it
the value `5`. And a transaction confirmed without result metadata has no result at
all: `sendTx` throws. -/
theorem sendTx_result_claim_fails :
    sendTx (scriptedServer "H" 0 ⟨TX_STATUS.SUCCESS, .str "AAAAAw==", some (structured
        [("__proto__", .number 5)]), ""⟩) 0
      = some ⟨.ok (.obj [("txHash", .str "H")]), ["H"]⟩
    ∧ specMapping "H" [("__proto__", .number 5)]
      = [("txHash", .str "H"), ("__proto__", .num 5)]
    ∧ sendTx (scriptedServer "H" 0 ⟨TX_STATUS.SUCCESS, .undefined, some (structured
        [("amount", .number 5), ("name", .uint8Array [88])]), ""⟩) 0
      = some ⟨.error (.value (.str "Empty .resultMetaXDR in getTransaction response")),
          ["H"]⟩ :=
  ⟨rfl, rfl, rfl⟩

/-! ## C3: the handle under `txHash` -/

/-- Claim C3, the code at the failing input. The transaction with handle `H` is
confirmed and returns the single entry `txHash = bytes("X")`: the mapping `sendTx`
returns has `txHash = "X"`, not the handle. -/
theorem sendTx_txHash_overwritten :
    sendTx (scriptedServer "H" 0 ⟨TX_STATUS.SUCCESS, .str "AAAAAw==", some (structured
        [("txHash", .uint8Array [88])]), ""⟩) 0
      = some ⟨.ok (.obj [("txHash", .str "X")]), ["H"]⟩ :=
  rfl

/-! ## The Redis database and the cache layer -/

theorem get_set_same (store : RedisStore) (key payload : String) :
    (store.set key payload).get key = some payload := by
  induction store with
  | nil => simp [RedisStore.set, RedisStore.get]
  | cons p rest ih =>
    obtain ⟨k, e⟩ := p
    by_cases h : k = key <;> simp [RedisStore.set, RedisStore.get, h, ih]

theorem get_expire (store : RedisStore) (key key' : String) (seconds : Int) :
    (store.expire key seconds).get key' = store.get key' := by
  induction store with
  | nil => rfl
  | cons p rest ih =>
    obtain ⟨k, e⟩ := p
    by_cases h : k = key
    · by_cases h' : k = key' <;> simp [RedisStore.expire, RedisStore.get, h, h']
    · by_cases h' : k = key'
      · simp only [RedisStore.expire, if_neg h, RedisStore.get, if_pos h']
      · simp only [RedisStore.expire, if_neg h, RedisStore.get, if_neg h', ih]

theorem get_del (store : RedisStore) (keys : List String) (key : String) (h : key ∈ keys) :
    (store.del keys).get key = none := by
  induction store with
  | nil => rfl
  | cons p rest ih =>
    obtain ⟨k, e⟩ := p
    unfold RedisStore.del at ih ⊢
    by_cases hk : k ∈ keys
    · simp only [List.filter_cons, hk, not_true_eq_false, decide_False, Bool.false_eq_true,
        if_false]
      exact ih
    · have hne : ¬ k = key := fun e => hk (e ▸ h)
      simp only [List.filter_cons, hk, not_false_eq_true, decide_True, if_true,
        RedisStore.get, hne, if_false]
      exact ih

theorem mem_keys_of_get (store : RedisStore) (key : String) (h : store.get key ≠ none) :
    key ∈ store.map Prod.fst := by
  induction store with
  | nil => exact absurd rfl h
  | cons p rest ih =>
    obtain ⟨k, e⟩ := p
    by_cases hk : k = key
    · simp [hk]
    · simp only [RedisStore.get, hk, if_false] at h
      simp [ih h]

/-- What `getCacheValue` makes of a stored text that parses. -/
theorem getCacheValue_of_payload (env : ProcessEnv) (store : RedisStore) (key payload : String)
    (v : JsVal) (hget : store.get (constructRedisKey env key) = some payload)
    (hparse : JSON.parse payload = .value v) :
    (v = .str "{}" → getCacheValue env store key = some .undefined)
      ∧ (v ≠ .str "{}" → getCacheValue env store key = some v) := by
  constructor
  · intro hv
    subst hv
    simp [getCacheValue, pullFromCache, hget, hparse]
  · intro hv
    simp only [getCacheValue, pullFromCache, hget, hparse]
    cases v <;> try rfl
    rename_i s
    have : ¬ s = "{}" := fun e => hv (by rw [e])
    simp [this]

/-- What `getCacheValue` answers for a key the database does not hold. -/
theorem getCacheValue_of_missing (env : ProcessEnv) (store : RedisStore) (key : String)
    (hget : store.get (constructRedisKey env key) = none) :
    getCacheValue env store key = some .null := by
  simp only [getCacheValue, pullFromCache, hget]
  rfl

/-- A serializable value written by `setCacheValue` is what `pullFromCache` reads. -/
theorem setCacheValue_stores (env : ProcessEnv) (store : RedisStore) (key : String) (v : JsVal)
    (ttl : Option Int) (hv : v.serializable = true) :
    ∃ store' payload, setCacheValue env store key v ttl = .ok store'
      ∧ store'.get (constructRedisKey env key) = some payload
      ∧ JSON.parse payload = .value v := by
  obtain ⟨text, hs, hp⟩ := parse_stringify v hv
  by_cases hpos : ttl.getD DEFAULT_EXPIRED_TIME > 0
  · refine ⟨(store.set (constructRedisKey env key) text).expire (constructRedisKey env key)
      (ttl.getD DEFAULT_EXPIRED_TIME), text, ?_, ?_, hp⟩
    · simp only [setCacheValue, hs, hpos, if_true]
    · rw [get_expire, get_set_same]
  · refine ⟨store.set (constructRedisKey env key) text, text, ?_, get_set_same _ _ _, hp⟩
    simp only [setCacheValue, hs, hpos, if_false]

/-! ## C4: a read served from the cache -/

theorem call_world (ledger : Ledger) (fuel : Nat) (method : String) (args : List JsVal)
    (w w1 : World) (x : Except Thrown JsVal)
    (h : StellarService.call ledger fuel method args w = some (x, w1)) :
    w1 = ⟨w.store, w.calls ++ [(method, args)]⟩ := by
  unfold StellarService.call at h
  cases hl : ledger w.calls.length method args with
  | error e =>
    simp only [hl, Option.some.injEq, Prod.mk.injEq] at h
    exact h.2.symm
  | ok server =>
    simp only [hl] at h
    cases hs : sendTx server fuel with
    | none => simp [hs] at h
    | some run =>
      simp only [hs, Option.some.injEq, Prod.mk.injEq] at h
      exact h.2.symm

theorem setCache_then_read (env : ProcessEnv) (h : String) (r : JsVal) (w : World)
    (hser : r.serializable = true) (hne : r ≠ .str "{}") :
    ∃ store', StellarService.__setCache env (.str h) r w = ⟨store', w.calls⟩
      ∧ StellarService.__getFromCache env (.str h) ⟨store', w.calls⟩ = some r := by
  obtain ⟨store', payload, hset, hget, hparse⟩ :=
    setCacheValue_stores env w.store ("stellar:cert:" ++ h) r (some CACHE_EXPIRATION) hser
  refine ⟨store', ?_, ?_⟩
  · simp only [StellarService.__setCache, StellarService.__constructRedisKey, JsVal.toText, hset]
  · exact (getCacheValue_of_payload env store' _ payload r hget hparse).2 hne

/-- Claim C4, amended. For each read operation (`getCert`, `isExists`), every
identity `h` and every truthy result `r` (a mapping, or the boolean `true`) that the
Executor returns to the first call: starting from a cache with no entry for `h`, the
operation issued twice invokes the Executor exactly once in total, and the second call
returns `r` from the cache and leaves the world as it was. -/
theorem read_twice_calls_once (op : ReadOp) (env : ProcessEnv) (ledger : Ledger) (fuel : Nat)
    (h : String) (w w1 : World) (r : JsVal)
    (hmiss : w.store.get (constructRedisKey env ("stellar:cert:" ++ h)) = none)
    (hcall : StellarService.call ledger fuel op.method [.str h] w = some (.ok r, w1))
    (hr : (∃ fields, r = .obj fields) ∨ r = .bool true)
    (hser : r.serializable = true) :
    ∃ w2, op.run env ledger fuel (.str h) w = some (.ok r, w2)
      ∧ op.run env ledger fuel (.str h) w2 = some (.ok r, w2)
      ∧ w2.calls = w.calls ++ [(op.method, [.str h])] := by
  have hne : r ≠ .str "{}" := by
    rcases hr with ⟨fields, rfl⟩ | rfl <;> exact fun e => JsVal.noConfusion e
  have htruthy : r.truthy = true := by
    rcases hr with ⟨fields, rfl⟩ | rfl <;> rfl
  have hw1 := call_world ledger fuel op.method [.str h] w w1 (.ok r) hcall
  obtain ⟨store', hset, hread⟩ := setCache_then_read env h r w1 hser hne
  have hmissed : StellarService.__getFromCache env (.str h) w = some .null :=
    getCacheValue_of_missing env w.store _ hmiss
  refine ⟨⟨store', w1.calls⟩, ?_, ?_, by rw [hw1]⟩
  · cases op <;>
      simp only [ReadOp.run, ReadOp.method, StellarService.getCert, StellarService.isExists,
        hmissed, JsVal.truthy, Bool.false_eq_true, if_false] at hcall ⊢ <;>
      simp only [hcall, hset]
  · cases op <;>
      simp only [ReadOp.run, StellarService.getCert, StellarService.isExists, hread, htruthy,
        if_true]

/-- Claim C4, witness: `getCert("abc")` on an empty cache, the ledger confirming the
mapping with the entry `amount = 5`. -/
theorem read_twice_calls_once_witness :
    ∃ w2, ReadOp.getCert.run ⟨none⟩ (confirmingLedger (structured [("amount", .number 5)])) 0
          (.str "abc") ⟨[], []⟩
        = some (.ok (.obj [("txHash", .str "H"), ("amount", .num 5)]), w2)
      ∧ ReadOp.getCert.run ⟨none⟩ (confirmingLedger (structured [("amount", .number 5)])) 0
          (.str "abc") w2
        = some (.ok (.obj [("txHash", .str "H"), ("amount", .num 5)]), w2)
      ∧ w2.calls = [] ++ [(ReadOp.getCert.method, [.str "abc"])] :=
  read_twice_calls_once .getCert ⟨none⟩ (confirmingLedger (structured [("amount", .number 5)])) 0
    "abc" ⟨[], []⟩ ⟨[], [(METHODS.GET_CERT, [.str "abc"])]⟩
    (.obj [("txHash", .str "H"), ("amount", .num 5)]) rfl rfl (Or.inl ⟨_, rfl⟩) (by decide)

/-- Claim C4, as stated, fails for the boolean result `false`. `isExists("abc")` on an
empty cache, the ledger answering `false`: the first call stores the text `false`, the
second call reads it, takes it for a miss and invokes the Executor again, twice in
total. -/
theorem read_twice_claim_fails :
    ReadOp.isExists.run ⟨none⟩ (confirmingLedger (.boolean false)) 0 (.str "abc") ⟨[], []⟩
      = some (.ok (.bool false),
          ⟨[("stellar:cert:abc", ⟨"false", some 604800⟩)],
           [(METHODS.IS_EXIST, [.str "abc"])]⟩)
    ∧ ReadOp.isExists.run ⟨none⟩ (confirmingLedger (.boolean false)) 0 (.str "abc")
        ⟨[("stellar:cert:abc", ⟨"false", some 604800⟩)], [(METHODS.IS_EXIST, [.str "abc"])]⟩
      = some (.ok (.bool false),
          ⟨[("stellar:cert:abc", ⟨"false", some 604800⟩)],
           [(METHODS.IS_EXIST, [.str "abc"]), (METHODS.IS_EXIST, [.str "abc"])]⟩) :=
  ⟨rfl, rfl⟩

/-! ## C5: the cache round trip -/

/-- The round trip through the cache for the values of the embedding (numbers are the
safe integers): `setCacheValue({key, value: v})` immediately followed by
`getCacheValue({key})` returns `v`, for every serializable `v` that is not the string
`"{}"`. -/
theorem setCacheValue_then_getCacheValue (env : ProcessEnv) (store : RedisStore) (key : String)
    (v : JsVal) (ttl : Option Int) (hv : v.serializable = true) (hne : v ≠ .str "{}") :
    ∃ store', setCacheValue env store key v ttl = .ok store'
      ∧ getCacheValue env store' key = some v := by
  obtain ⟨store', payload, hset, hget, hparse⟩ := setCacheValue_stores env store key v ttl hv
  exact ⟨store', hset, (getCacheValue_of_payload env store' key payload v hget hparse).2 hne⟩

/-- Claim C5, the code at the failing input. The string `"{}"` is a JSON-serializable
value and not the empty object. `setCacheValue({key: "k", value: "{}"})` stores it as
the text `"{}"` in quotes; `getCacheValue({key: "k"})` finds the entry, reads the
string back, and returns `undefined` instead of the string. -/
theorem getCacheValue_drops_brace_string :
    JSON.stringify (.str "{}") = some "\"{}\""
    ∧ setCacheValue ⟨none⟩ [] "k" (.str "{}") none = .ok [("k", ⟨"\"{}\"", some 60⟩)]
    ∧ RedisStore.get [("k", ⟨"\"{}\"", some 60⟩)] (constructRedisKey ⟨none⟩ "k")
      = some "\"{}\""
    ∧ JSON.parse "\"{}\"" = .value (.str "{}")
    ∧ getCacheValue ⟨none⟩ [("k", ⟨"\"{}\"", some 60⟩)] "k" = some .undefined :=
  ⟨rfl, rfl, rfl, rfl, rfl⟩

/-! ## C6: the empty-object sentinel -/

theorem skipWs_append (a rest : List Char) (ha : ∀ x ∈ a, isWs x = true) :
    skipWs (a ++ rest) = skipWs rest := by
  induction a with
  | nil => rfl
  | cons x a ih =>
    have hx := ha x (List.mem_cons_self _ _)
    simp only [List.cons_append, skipWs, hx, if_true]
    exact ih (fun y hy => ha y (List.mem_cons_of_mem _ hy))

theorem skipWs_all (c : List Char) (hc : ∀ x ∈ c, isWs x = true) : skipWs c = [] := by
  have h := skipWs_append c [] hc
  rw [List.append_nil] at h
  rw [h]
  rfl

/-- The embedded `JSON.parse` reads every text of the empty object as the empty
object. -/
theorem parse_emptyObjectText (payload : String) (h : EmptyObjectText payload) :
    JSON.parse payload = .value (.obj []) := by
  obtain ⟨a, b, c, ha, hb, hc, hdata⟩ := h
  have hopen : skipWs (a ++ '{' :: (b ++ '}' :: c)) = '{' :: (b ++ '}' :: c) := by
    rw [skipWs_append a _ ha]
    exact skipWs_cons (by decide) _
  have hclose : skipWs (b ++ '}' :: c) = '}' :: c := by
    rw [skipWs_append b _ hb]
    exact skipWs_cons (by decide) _
  have hvalue : parseValue (payload.length + 1) payload.data = .ok (.obj []) c := by
    rw [hdata, parseValue.eq_def]
    simp only [hopen, hclose]
    simp +decide
  simp only [JSON.parse, hvalue, skipWs_all c hc, if_true]

/-- Claim C6, amended. `getCacheValue({key})` returns the empty object itself, not
absent, whenever the text stored under the key deserializes to the empty object: for
every text made of the two braces with optional white space, and so for every text the
embedded `JSON.parse` reads as the empty object. In particular
`setCacheValue({key, value: {}})` followed by `getCacheValue({key})` returns the empty
object. -/
theorem getCacheValue_returns_empty_object (env : ProcessEnv) (store : RedisStore)
    (key : String) :
    (∀ payload, store.get (constructRedisKey env key) = some payload →
        EmptyObjectText payload → getCacheValue env store key = some (.obj []))
    ∧ (∀ payload, store.get (constructRedisKey env key) = some payload →
        JSON.parse payload = .value (.obj []) → getCacheValue env store key = some (.obj []))
    ∧ (∀ ttl, ∃ store', setCacheValue env store key (.obj []) ttl = .ok store'
        ∧ getCacheValue env store' key = some (.obj [])) :=
  ⟨fun payload hget htext =>
     (getCacheValue_of_payload env store key payload _ hget
       (parse_emptyObjectText payload htext)).2 (fun e => JsVal.noConfusion e),
   fun payload hget hparse =>
     (getCacheValue_of_payload env store key payload _ hget hparse).2
       (fun e => JsVal.noConfusion e),
   fun ttl => by
     obtain ⟨store', payload, hset, hget, hparse⟩ :=
       setCacheValue_stores env store key (.obj []) ttl rfl
     exact ⟨store', hset, (getCacheValue_of_payload env store' key payload _ hget hparse).2
       (fun e => JsVal.noConfusion e)⟩⟩

/-- Claim C6, witness: in the test environment, a stored text of the empty object with
white space around and between the braces is answered with the empty object. -/
theorem getCacheValue_returns_empty_object_witness :
    RedisStore.get [("__test:k", ⟨" \x7b\n \x7d ", none⟩)] (constructRedisKey ⟨some "test"⟩ "k")
      = some " \x7b\n \x7d "
    ∧ EmptyObjectText " \x7b\n \x7d "
    ∧ getCacheValue ⟨some "test"⟩ [("__test:k", ⟨" \x7b\n \x7d ", none⟩)] "k" = some (.obj []) :=
  ⟨rfl,
   ⟨[' '], ['\n', ' '], [' '], by decide, by decide, by decide, rfl⟩,
   (getCacheValue_returns_empty_object ⟨some "test"⟩ [("__test:k", ⟨" \x7b\n \x7d ", none⟩)] "k").1
     " \x7b\n \x7d " rfl
     ⟨[' '], ['\n', ' '], [' '], by decide, by decide, by decide, rfl⟩⟩

/-- Claim C6, as stated, fails. The text `{}` deserializes to the empty object, and
`getCacheValue` returns that object, not `undefined`: so after
`setCacheValue({key, value: {}})`. For a key never set the answer is `null`. -/
theorem getCacheValue_sentinel_claim_fails :
    JSON.parse "{}" = .value (.obj [])
    ∧ setCacheValue ⟨none⟩ [] "k" (.obj []) none = .ok [("k", ⟨"{}", some 60⟩)]
    ∧ getCacheValue ⟨none⟩ [("k", ⟨"{}", some 60⟩)] "k" = some (.obj [])
    ∧ getCacheValue ⟨none⟩ [] "k" = some .null :=
  ⟨rfl, rfl, rfl, rfl⟩

/-! ## C7: removal by prefix -/

theorem stellar_cert_no_glob : "stellar:cert:".data.any isGlobChar = false := by decide

/-- Outside the test environment, `removeKeysWithPrefix("stellar:cert:")` removes
every stored key that starts with the prefix: `getCacheValue` then answers `null`. -/
theorem removeKeysWithPrefix_then_get (env : ProcessEnv) (store : RedisStore) (k : String)
    (henv : env.NODE_ENV ≠ some "test")
    (hk : List.isPrefixOf "stellar:cert:".data k.data = true)
    (hset : store.get k ≠ none) :
    ∃ store', removeKeysWithPrefix store "stellar:cert:" = some store'
      ∧ getCacheValue env store' k = some .null := by
  have hmem : k ∈ (store.map Prod.fst).filter
      (fun k => List.isPrefixOf "stellar:cert:".data k.data) :=
    List.mem_filter.mpr ⟨mem_keys_of_get store k hset, hk⟩
  have hlen : ((store.map Prod.fst).filter
      (fun k => List.isPrefixOf "stellar:cert:".data k.data)).length > 0 :=
    List.length_pos_of_mem hmem
  refine ⟨store.del ((store.map Prod.fst).filter
      (fun k => List.isPrefixOf "stellar:cert:".data k.data)), ?_, ?_⟩
  · unfold removeKeysWithPrefix findKeysWithPrefix RedisStore.keysStartingWith
    rw [if_neg (by rw [stellar_cert_no_glob]; exact Bool.false_ne_true)]
    exact if_pos hlen
  · apply getCacheValue_of_missing
    have hkey : constructRedisKey env k = k := by simp [constructRedisKey, henv]
    rw [hkey]
    exact get_del store _ k hmem

/-- Claim C7, the code at the failing input. With `NODE_ENV` equal to `test`,
`setCacheValue` stores the key `stellar:cert:abc` as `__test:stellar:cert:abc`;
`removeKeysWithPrefix("stellar:cert:")` finds no key and removes none; `getCacheValue`
still returns the stored value. -/
theorem removeKeysWithPrefix_misses_test_keys :
    setCacheValue ⟨some "test"⟩ [] "stellar:cert:abc" (.obj [("txHash", .str "H")])
        (some CACHE_EXPIRATION)
      = .ok [("__test:stellar:cert:abc", ⟨"\x7b\"txHash\":\"H\"\x7d", some 604800⟩)]
    ∧ removeKeysWithPrefix [("__test:stellar:cert:abc", ⟨"\x7b\"txHash\":\"H\"\x7d", some 604800⟩)]
        "stellar:cert:"
      = some [("__test:stellar:cert:abc", ⟨"\x7b\"txHash\":\"H\"\x7d", some 604800⟩)]
    ∧ getCacheValue ⟨some "test"⟩
        [("__test:stellar:cert:abc", ⟨"\x7b\"txHash\":\"H\"\x7d", some 604800⟩)] "stellar:cert:abc"
      = some (.obj [("txHash", .str "H")]) :=
  ⟨rfl, rfl, rfl⟩

/-! ## C8: the reply to a failed request -/

/-- Claim C8, the code at the failing inputs. A mint-token request for the hash `abc`:
when the ledger rejects the submission with the payload `AAAAAAAAAGT////7AAAAAA==`,
`sendTx` throws that string, and the one reply the handler publishes echoes the request
and has no field `error_message`; the same when the transaction ends `FAILED`. When
the rejection carries no payload, `sendTx` throws `undefined`, the `catch` block throws
on `error.message`, and no reply is published. An `Error` instance, by contrast, is
reported in `error_message`. -/
theorem rpcServerHandler_drops_error_message :
    sendTx ⟨.ok ⟨"ERROR", "H", .str "AAAAAAAAAGT////7AAAAAA=="⟩,
        fun _ _ => .error (.error "Error" "no query expected")⟩ 0
      = some ⟨.error (.value (.str "AAAAAAAAAGT////7AAAAAA==")), []⟩
    ∧ (rpcServerHandler ⟨none⟩ (rejectingLedger (.str "AAAAAAAAAGT////7AAAAAA==")) 0
        mintRequest ⟨[], []⟩).map (fun run => (run.replies.map (fun r => r.body), run.rejected))
      = some (["\x7b\"data\":\x7b\"data\":\x7b\"hash\":\"abc\"\x7d,\"id\":\"c-1\",\"type\":\"mint-token\"\x7d\x7d"],
          none)
    ∧ (rpcServerHandler ⟨none⟩ (failingLedger "AAAAAAAAAAAAAGT/////") 0
        mintRequest ⟨[], []⟩).map (fun run => (run.replies.map (fun r => r.body), run.rejected))
      = some (["\x7b\"data\":\x7b\"data\":\x7b\"hash\":\"abc\"\x7d,\"id\":\"c-1\",\"type\":\"mint-token\"\x7d\x7d"],
          none)
    ∧ (rpcServerHandler ⟨none⟩ (rejectingLedger .undefined) 0
        mintRequest ⟨[], []⟩).map (fun run => (run.replies.map (fun r => r.body), run.rejected))
      = some ([], some (.error "TypeError"
          "Cannot read properties of undefined (reading 'message')"))
    ∧ (rpcServerHandler ⟨none⟩ (unreachableLedger "Account not found") 0
        mintRequest ⟨[], []⟩).map (fun run => (run.replies.map (fun r => r.body), run.rejected))
      = some (["\x7b\"data\":\x7b\"data\":\x7b\"hash\":\"abc\"\x7d,\"id\":\"c-1\",\"type\":\"mint-token\"\x7d,\"error_message\":\"Account not found\"\x7d"],
          none) :=
  ⟨rfl, rfl, rfl, rfl, rfl⟩

/-! ## C9: a request without a hash -/

theorem optionalHash_falsy (data : JsVal)
    (h : data = .undefined ∨ data.prop "hash" = .undefined ∨ data.prop "hash" = .null
      ∨ data.prop "hash" = .str "") :
    (optionalHash data).truthy = false := by
  rcases h with h | h | h | h
  · subst h; rfl
  · cases data <;> first | rfl | (simp only [optionalHash, h]; rfl)
  · cases data <;> first | rfl | (simp only [optionalHash, h]; rfl)
  · cases data <;> first | rfl | (simp only [optionalHash, h]; rfl)

/-- Claim C9. For every request whose body parses to an envelope, of any type, whose
`data` is absent or whose `data.hash` is absent, `null` or the empty string,
`rpcServerHandler` publishes no reply and leaves the world as it was: no ledger call,
so no `storeCert`, and no cache write. -/
theorem rpcServerHandler_without_hash (env : ProcessEnv) (ledger : Ledger) (fuel : Nat)
    (request : Request) (w : World) (envelope : JsVal)
    (hparse : JSON.parse request.body = .value envelope)
    (hdata : envelope.prop "data" = .undefined
      ∨ (envelope.prop "data").prop "hash" = .undefined
      ∨ (envelope.prop "data").prop "hash" = .null
      ∨ (envelope.prop "data").prop "hash" = .str "") :
    ∃ rejected, rpcServerHandler env ledger fuel request w = some ⟨[], rejected, w⟩ := by
  have hfalsy := optionalHash_falsy _ hdata
  unfold rpcServerHandler
  rw [hparse]
  cases envelope with
  | undefined => exact ⟨_, rfl⟩
  | null => exact ⟨_, rfl⟩
  | bool b => exact ⟨none, rfl⟩
  | num n => exact ⟨none, rfl⟩
  | str s => exact ⟨none, rfl⟩
  | arr items => exact ⟨none, rfl⟩
  | obj fields =>
    refine ⟨none, ?_⟩
    simp only []
    cases ht : (JsVal.obj fields).prop "type" with
    | str t =>
      by_cases hm : t = "mint-token"
      · simp only [hm, if_true, hfalsy, Bool.not_false]
      · simp only [hm, if_false]
    | _ => rfl

/-- Claim C9, witness: a mint-token request whose `data.hash` is the empty string, and
a request of another type without `data`. -/
theorem rpcServerHandler_without_hash_witness :
    (∃ rejected, rpcServerHandler ⟨none⟩ (confirmingLedger (.boolean true)) 0
        ⟨"\x7b\"data\":\x7b\"hash\":\"\"\x7d,\"id\":\"c-1\",\"type\":\"mint-token\"\x7d", .str "c-1"⟩ ⟨[], []⟩
      = some ⟨[], rejected, ⟨[], []⟩⟩)
    ∧ (∃ rejected, rpcServerHandler ⟨none⟩ (confirmingLedger (.boolean true)) 0
        ⟨"\x7b\"id\":\"c-2\",\"type\":\"burn-token\"\x7d", .str "c-2"⟩ ⟨[], []⟩
      = some ⟨[], rejected, ⟨[], []⟩⟩) :=
  ⟨rpcServerHandler_without_hash ⟨none⟩ _ 0 _ ⟨[], []⟩
      (.obj [("data", .obj [("hash", .str "")]), ("id", .str "c-1"), ("type", .str "mint-token")])
      rfl (Or.inr (Or.inr (Or.inr rfl))),
   rpcServerHandler_without_hash ⟨none⟩ _ 0 _ ⟨[], []⟩
      (.obj [("id", .str "c-2"), ("type", .str "burn-token")]) rfl (Or.inl rfl)⟩

/-! ## C10: validation in the Gateway -/

/-- Claim C10, amended. For every mint request whose assets list has zero elements or
more than one element, the Gateway handler throws the assertion's `Error` before it
creates an RPC client or publishes any message. -/
theorem postMint_rejects_wrong_count (serviceName replyTo correlationId : String)
    (assets : List JsVal) (mock : JsVal) (h : assets.length = 0 ∨ 1 < assets.length) :
    ∃ message, postMint serviceName replyTo correlationId assets mock
      = ⟨[], some (.error "Error" message)⟩ := by
  rcases h with h | h
  · refine ⟨"No assets provided", ?_⟩
    have : ¬ 0 < assets.length := by omega
    simp [postMint, assertEqual, this]
  · refine ⟨"Only one asset is allowed", ?_⟩
    have h0 : 0 < assets.length := by omega
    have h1 : ¬ assets.length ≤ 1 := by omega
    simp [postMint, assertEqual, h0, h1]

/-- Claim C10, witness: no asset, and two assets. -/
theorem postMint_rejects_wrong_count_witness :
    (∃ message, postMint "StellarService" "r-1" "c-1" [] .undefined
      = ⟨[], some (.error "Error" message)⟩)
    ∧ (∃ message, postMint "StellarService" "r-1" "c-1"
        [.obj [("assetName", .str "abc")], .obj [("assetName", .str "def")]] .undefined
      = ⟨[], some (.error "Error" message)⟩) :=
  ⟨postMint_rejects_wrong_count _ _ _ [] .undefined (Or.inl rfl),
   postMint_rejects_wrong_count _ _ _ _ .undefined (Or.inr (by decide))⟩

/-- Claim C10, as stated, fails for a single asset without `assetName`: the Gateway
creates an RPC client and publishes a request whose `data` has no `hash`. -/
theorem postMint_publishes_without_hash :
    postMint "StellarService" "r-1" "c-1" [.obj []] .undefined
      = ⟨[.createRPCClient,
          .send "StellarService" "r-1" "c-1"
            "\x7b\"data\":\x7b\x7d,\"options\":\x7b\"skipWait\":false,\"mock\":false\x7d,\"id\":\"c-1\",\"type\":\"mint-token\"\x7d"],
         none⟩ :=
  rfl

/-! ## C11: one cache key for the four operations -/

theorem entry?_set_same (store : RedisStore) (key payload : String) :
    (store.set key payload).entry? key = some ⟨payload, none⟩ := by
  induction store with
  | nil => simp [RedisStore.set, RedisStore.entry?]
  | cons p rest ih =>
    obtain ⟨k, e⟩ := p
    by_cases h : k = key <;> simp [RedisStore.set, RedisStore.entry?, h, ih]

theorem entry?_set_other (store : RedisStore) (key key' payload : String) (h : key ≠ key') :
    (store.set key payload).entry? key' = store.entry? key' := by
  induction store with
  | nil => simp [RedisStore.set, RedisStore.entry?, h]
  | cons p rest ih =>
    obtain ⟨k, e⟩ := p
    by_cases hk : k = key
    · subst hk
      simp [RedisStore.set, RedisStore.entry?, h]
    · by_cases hk' : k = key'
      · simp only [RedisStore.set, if_neg hk, RedisStore.entry?, if_pos hk']
      · simp only [RedisStore.set, if_neg hk, RedisStore.entry?, if_neg hk', ih]

theorem entry?_expire_same (store : RedisStore) (key : String) (seconds : Int) :
    (store.expire key seconds).entry? key
      = (store.entry? key).map fun e => ⟨e.payload, some seconds⟩ := by
  induction store with
  | nil => rfl
  | cons p rest ih =>
    obtain ⟨k, e⟩ := p
    by_cases h : k = key <;> simp [RedisStore.expire, RedisStore.entry?, h, ih]

theorem entry?_expire_other (store : RedisStore) (key key' : String) (seconds : Int)
    (h : key ≠ key') : (store.expire key seconds).entry? key' = store.entry? key' := by
  induction store with
  | nil => rfl
  | cons p rest ih =>
    obtain ⟨k, e⟩ := p
    by_cases hk : k = key
    · subst hk
      simp [RedisStore.expire, RedisStore.entry?, h]
    · by_cases hk' : k = key'
      · simp only [RedisStore.expire, if_neg hk, RedisStore.entry?, if_pos hk']
      · simp only [RedisStore.expire, if_neg hk, RedisStore.entry?, if_neg hk', ih]

theorem string_append_cancel (p a b : String) (h : p ++ a = p ++ b) : a = b := by
  have hd := congrArg String.data h
  simp only [String.data_append, List.append_cancel_left_eq] at hd
  exact String.ext hd

theorem constructRedisKey_injective (env : ProcessEnv) (a b : String)
    (h : constructRedisKey env a = constructRedisKey env b) : a = b := by
  unfold constructRedisKey at h
  split_ifs at h
  · exact h
  · exact string_append_cancel _ a b h

/-- The key the facade builds for a textual hash. -/
theorem facade_key (h : String) :
    StellarService.__constructRedisKey (.str h) = "stellar:cert:" ++ h := rfl

theorem facade_key_ne (env : ProcessEnv) (old new : String) (h : old ≠ new) :
    constructRedisKey env (StellarService.__constructRedisKey (.str new))
      ≠ constructRedisKey env (StellarService.__constructRedisKey (.str old)) := by
  intro e
  have := constructRedisKey_injective env _ _ e
  rw [facade_key, facade_key] at this
  exact h (string_append_cancel _ _ _ this).symm

theorem decodeSuccess_shape (hash : String) (resp : GetTransactionResponse) (r : JsVal)
    (h : decodeSuccess hash resp = .ok r) :
    (∃ b, r = .bool b) ∨ (∃ fields, r = .obj fields) := by
  unfold decodeSuccess at h
  split_ifs at h
  cases hrv : resp.returnValue with
  | none => simp [hrv] at h
  | some returnValue =>
    simp only [hrv] at h
    cases returnValue with
    | boolean b =>
      simp only [typeOf, TYPES.Boolean, if_true] at h
      exact Or.inl ⟨b, by cases h; rfl⟩
    | array items =>
      simp +decide only [typeOf, TYPES.Boolean, TYPES.Array, if_false, ne_eq, not_true_eq_false]
        at h
      cases hd : decodeEntries items [("txHash", .str hash)] with
      | error e => simp [hd, Except.map] at h
      | ok data =>
        simp only [hd, Except.map, Except.ok.injEq] at h
        exact Or.inr ⟨data, h.symm⟩
    | _ => simp +decide [typeOf, TYPES.Boolean, TYPES.Array] at h

theorem finish_shape (hash : String) (resp : GetTransactionResponse) (r : JsVal)
    (h : finish hash resp = .ok r) :
    (∃ b, r = .bool b) ∨ (∃ fields, r = .obj fields) := by
  unfold finish at h
  split_ifs at h
  exact decodeSuccess_shape hash resp r h

theorem poll_shape (server : RpcServer) (hash : String) (r : JsVal) :
    ∀ (fuel : Nat) (resp : GetTransactionResponse) (asked : List String) (run : SendTxRun),
      poll server hash fuel resp asked = some run → run.outcome = .ok r →
      (∃ b, r = .bool b) ∨ (∃ fields, r = .obj fields) := by
  intro fuel
  induction fuel with
  | zero =>
    intro resp asked run hrun hout
    unfold poll at hrun
    split_ifs at hrun
    simp only [Option.some.injEq] at hrun
    subst hrun
    exact finish_shape hash resp r hout
  | succ f ih =>
    intro resp asked run hrun hout
    unfold poll at hrun
    split_ifs at hrun
    · cases hq : server.getTransaction asked.length hash with
      | error e =>
        simp only [hq, Option.some.injEq] at hrun
        subst hrun
        simp at hout
      | ok next =>
        simp only [hq] at hrun
        exact ih next _ run hrun hout
    · simp only [Option.some.injEq] at hrun
      subst hrun
      exact finish_shape hash resp r hout

theorem sendTx_shape (server : RpcServer) (fuel : Nat) (run : SendTxRun) (r : JsVal)
    (hrun : sendTx server fuel = some run) (hout : run.outcome = .ok r) :
    (∃ b, r = .bool b) ∨ (∃ fields, r = .obj fields) := by
  unfold sendTx at hrun
  cases hs : server.sendTransaction with
  | error e =>
    simp only [hs, Option.some.injEq] at hrun
    subst hrun
    simp at hout
  | ok sendResponse =>
    simp only [hs] at hrun
    split_ifs at hrun
    · cases hq : server.getTransaction 0 sendResponse.hash with
      | error e =>
        simp only [hq, Option.some.injEq] at hrun
        subst hrun
        simp at hout
      | ok getResponse =>
        simp only [hq] at hrun
        exact poll_shape server _ r fuel getResponse _ run hrun hout
    · simp only [Option.some.injEq] at hrun
      subst hrun
      simp at hout

/-- What `call` returns is what `sendTx` returns: a boolean or a mapping. -/
theorem call_shape (ledger : Ledger) (fuel : Nat) (method : String) (args : List JsVal)
    (w w1 : World) (r : JsVal)
    (h : StellarService.call ledger fuel method args w = some (.ok r, w1)) :
    (∃ b, r = .bool b) ∨ (∃ fields, r = .obj fields) := by
  unfold StellarService.call at h
  cases hl : ledger w.calls.length method args with
  | error e => simp [hl] at h
  | ok server =>
    simp only [hl] at h
    cases hs : sendTx server fuel with
    | none => simp [hs] at h
    | some run =>
      simp only [hs, Option.some.injEq, Prod.mk.injEq] at h
      exact sendTx_shape server fuel run r hs h.1

theorem storeCert_ok (env : ProcessEnv) (ledger : Ledger) (fuel : Nat) (hash : JsVal)
    (w wS : World) (r : JsVal)
    (h : StellarService.storeCert env ledger fuel hash w = some (.ok r, wS)) :
    ∃ w1, StellarService.call ledger fuel METHODS.STORE_CERT [hash] w = some (.ok r, w1)
      ∧ wS = StellarService.__setCache env hash r w1 := by
  unfold StellarService.storeCert at h
  cases hc : StellarService.call ledger fuel METHODS.STORE_CERT [hash] w with
  | none => simp [hc] at h
  | some res =>
    obtain ⟨out, w1⟩ := res
    cases out with
    | error e => simp [hc] at h
    | ok data =>
      simp only [hc, Option.some.injEq, Prod.mk.injEq, Except.ok.injEq] at h
      obtain ⟨hd, hw⟩ := h
      subst hd
      exact ⟨w1, rfl, hw.symm⟩

theorem updateCert_ok (env : ProcessEnv) (ledger : Ledger) (fuel : Nat) (hash newHash : JsVal)
    (w wU : World) (u : JsVal)
    (h : StellarService.updateCert env ledger fuel hash newHash w = some (.ok u, wU)) :
    ∃ w1, StellarService.call ledger fuel METHODS.UPDATE_CERT [hash, newHash] w
        = some (.ok u, w1)
      ∧ wU = StellarService.__setCache env newHash u w1 := by
  unfold StellarService.updateCert at h
  cases hc : StellarService.call ledger fuel METHODS.UPDATE_CERT [hash, newHash] w with
  | none => simp [hc] at h
  | some res =>
    obtain ⟨out, w1⟩ := res
    cases out with
    | error e => simp [hc] at h
    | ok data =>
      simp only [hc, Option.some.injEq, Prod.mk.injEq, Except.ok.injEq] at h
      obtain ⟨hd, hw⟩ := h
      subst hd
      exact ⟨w1, rfl, hw.symm⟩

theorem stringify_of_shape (r : JsVal)
    (h : (∃ b, r = .bool b) ∨ (∃ fields, r = .obj fields)) :
    ∃ payload, JSON.stringify r = some payload := by
  rcases h with ⟨b, rfl⟩ | ⟨fields, rfl⟩ <;> exact ⟨_, rfl⟩

theorem setCache_store (env : ProcessEnv) (h : String) (u : JsVal) (w : World)
    (payload : String) (hs : JSON.stringify u = some payload) :
    StellarService.__setCache env (.str h) u w
      = ⟨(w.store.set (constructRedisKey env ("stellar:cert:" ++ h)) payload).expire
          (constructRedisKey env ("stellar:cert:" ++ h)) CACHE_EXPIRATION, w.calls⟩ := by
  have hpos : (some CACHE_EXPIRATION).getD DEFAULT_EXPIRED_TIME > 0 := by decide
  simp only [StellarService.__setCache, setCacheValue, facade_key, hs, hpos, if_true]
  rfl

/-- Claim C11, amended. The four facade operations build the one cache key
`stellar:cert:` followed by the hash. After `storeCert(h)` has returned a truthy result
`r`, `getCert(h)` and `isExists(h)` both return `r` and leave the world as it was: the
Executor is not invoked. After `updateCert(old, new)` with `old` different from `new`
has returned `u`, the cache entry under `old` is what it was before, and the entry
under `new` holds the JSON text of `u` with the seven-day time to live, which the cache
reads back as `u`. -/
theorem facade_shares_cache_key (env : ProcessEnv) (ledger : Ledger) (fuel : Nat)
    (h old new : String) (w wS w' wU : World) (r u : JsVal)
    (hstore : StellarService.storeCert env ledger fuel (.str h) w = some (.ok r, wS))
    (htruthy : r.truthy = true) (hser : r.serializable = true)
    (hupdate : StellarService.updateCert env ledger fuel (.str old) (.str new) w'
      = some (.ok u, wU))
    (hne : old ≠ new) :
    StellarService.__constructRedisKey (.str h) = "stellar:cert:" ++ h
    ∧ StellarService.getCert env ledger fuel (.str h) wS = some (.ok r, wS)
    ∧ StellarService.isExists env ledger fuel (.str h) wS = some (.ok r, wS)
    ∧ wU.store.entry? (constructRedisKey env ("stellar:cert:" ++ old))
        = w'.store.entry? (constructRedisKey env ("stellar:cert:" ++ old))
    ∧ (∃ payload, JSON.stringify u = some payload
        ∧ wU.store.entry? (constructRedisKey env ("stellar:cert:" ++ new))
          = some ⟨payload, some CACHE_EXPIRATION⟩)
    ∧ (u.serializable = true → StellarService.__getFromCache env (.str new) wU = some u) := by
  obtain ⟨w1, hcall, hwS⟩ := storeCert_ok env ledger fuel (.str h) w wS r hstore
  have hshape := call_shape ledger fuel _ _ w w1 r hcall
  have hrne : r ≠ .str "{}" := by
    rcases hshape with ⟨b, rfl⟩ | ⟨fields, rfl⟩ <;> exact fun e => JsVal.noConfusion e
  obtain ⟨store', hset, hread⟩ := setCache_then_read env h r w1 hser hrne
  have hwS' : wS = ⟨store', w1.calls⟩ := by rw [hwS, hset]
  obtain ⟨w2, hcallU, hwU⟩ := updateCert_ok env ledger fuel (.str old) (.str new) w' wU u hupdate
  have hshapeU := call_shape ledger fuel _ _ w' w2 u hcallU
  have hune : u ≠ .str "{}" := by
    rcases hshapeU with ⟨b, rfl⟩ | ⟨fields, rfl⟩ <;> exact fun e => JsVal.noConfusion e
  obtain ⟨payload, hpayload⟩ := stringify_of_shape u hshapeU
  have hw2 := call_world ledger fuel _ _ w' w2 (.ok u) hcallU
  have hkeys := facade_key_ne env old new hne
  rw [facade_key, facade_key] at hkeys
  refine ⟨rfl, ?_, ?_, ?_, ⟨payload, hpayload, ?_⟩, ?_⟩
  · rw [hwS']
    simp only [StellarService.getCert, hread, htruthy, if_true]
  · rw [hwS']
    simp only [StellarService.isExists, hread, htruthy, if_true]
  · rw [hwU, setCache_store env new u w2 payload hpayload]
    simp only [entry?_expire_other _ _ _ _ hkeys, entry?_set_other _ _ _ _ hkeys, hw2]
  · rw [hwU, setCache_store env new u w2 payload hpayload]
    simp only [entry?_expire_same, entry?_set_same, Option.map_some']
  · intro hseru
    obtain ⟨store'', hset', hread'⟩ := setCache_then_read env new u w2 hseru hune
    rw [hwU, hset']
    exact hread'

/-- Claim C11, witness: in the test environment, `storeCert("abc")` confirmed with the
entry `amount = 5`, then the two reads; and `updateCert("abc", "def")` on the world the
store left. -/
theorem facade_shares_cache_key_witness :
    StellarService.__constructRedisKey (.str "abc") = "stellar:cert:" ++ "abc"
    ∧ StellarService.getCert ⟨some "test"⟩ (numberedLedger (structured [("amount", .number 5)])) 0
        (.str "abc")
        ⟨[("__test:stellar:cert:abc", ⟨"\x7b\"txHash\":\"H0\",\"amount\":5\x7d", some 604800⟩)],
          [(METHODS.STORE_CERT, [.str "abc"])]⟩
      = some (.ok (.obj [("txHash", .str "H0"), ("amount", .num 5)]),
          ⟨[("__test:stellar:cert:abc", ⟨"\x7b\"txHash\":\"H0\",\"amount\":5\x7d", some 604800⟩)],
            [(METHODS.STORE_CERT, [.str "abc"])]⟩)
    ∧ StellarService.isExists ⟨some "test"⟩ (numberedLedger (structured [("amount", .number 5)])) 0
        (.str "abc")
        ⟨[("__test:stellar:cert:abc", ⟨"\x7b\"txHash\":\"H0\",\"amount\":5\x7d", some 604800⟩)],
          [(METHODS.STORE_CERT, [.str "abc"])]⟩
      = some (.ok (.obj [("txHash", .str "H0"), ("amount", .num 5)]),
          ⟨[("__test:stellar:cert:abc", ⟨"\x7b\"txHash\":\"H0\",\"amount\":5\x7d", some 604800⟩)],
            [(METHODS.STORE_CERT, [.str "abc"])]⟩)
    ∧ RedisStore.entry?
        [("__test:stellar:cert:abc", ⟨"\x7b\"txHash\":\"H0\",\"amount\":5\x7d", some 604800⟩),
         ("__test:stellar:cert:def", ⟨"\x7b\"txHash\":\"H1\",\"amount\":5\x7d", some 604800⟩)]
        (constructRedisKey ⟨some "test"⟩ ("stellar:cert:" ++ "abc"))
      = RedisStore.entry?
        [("__test:stellar:cert:abc", ⟨"\x7b\"txHash\":\"H0\",\"amount\":5\x7d", some 604800⟩)]
        (constructRedisKey ⟨some "test"⟩ ("stellar:cert:" ++ "abc"))
    ∧ (∃ payload, JSON.stringify (.obj [("txHash", .str "H1"), ("amount", .num 5)]) = some payload
        ∧ RedisStore.entry?
            [("__test:stellar:cert:abc", ⟨"\x7b\"txHash\":\"H0\",\"amount\":5\x7d", some 604800⟩),
             ("__test:stellar:cert:def", ⟨"\x7b\"txHash\":\"H1\",\"amount\":5\x7d", some 604800⟩)]
            (constructRedisKey ⟨some "test"⟩ ("stellar:cert:" ++ "def"))
          = some ⟨payload, some CACHE_EXPIRATION⟩)
    ∧ ((JsVal.obj [("txHash", .str "H1"), ("amount", .num 5)]).serializable = true →
        StellarService.__getFromCache ⟨some "test"⟩ (.str "def")
          ⟨[("__test:stellar:cert:abc", ⟨"\x7b\"txHash\":\"H0\",\"amount\":5\x7d", some 604800⟩),
            ("__test:stellar:cert:def", ⟨"\x7b\"txHash\":\"H1\",\"amount\":5\x7d", some 604800⟩)],
           [(METHODS.STORE_CERT, [.str "abc"]), (METHODS.UPDATE_CERT, [.str "abc", .str "def"])]⟩
          = some (.obj [("txHash", .str "H1"), ("amount", .num 5)])) :=
  facade_shares_cache_key ⟨some "test"⟩ (numberedLedger (structured [("amount", .number 5)])) 0
    "abc" "abc" "def" ⟨[], []⟩
    ⟨[("__test:stellar:cert:abc", ⟨"\x7b\"txHash\":\"H0\",\"amount\":5\x7d", some 604800⟩)],
      [(METHODS.STORE_CERT, [.str "abc"])]⟩
    ⟨[("__test:stellar:cert:abc", ⟨"\x7b\"txHash\":\"H0\",\"amount\":5\x7d", some 604800⟩)],
      [(METHODS.STORE_CERT, [.str "abc"])]⟩
    ⟨[("__test:stellar:cert:abc", ⟨"\x7b\"txHash\":\"H0\",\"amount\":5\x7d", some 604800⟩),
      ("__test:stellar:cert:def", ⟨"\x7b\"txHash\":\"H1\",\"amount\":5\x7d", some 604800⟩)],
     [(METHODS.STORE_CERT, [.str "abc"]), (METHODS.UPDATE_CERT, [.str "abc", .str "def"])]⟩
    (.obj [("txHash", .str "H0"), ("amount", .num 5)])
    (.obj [("txHash", .str "H1"), ("amount", .num 5)])
    rfl rfl (by decide) rfl (by decide)

/-- Claim C11, as stated, fails for `updateCert(h, h)`. `storeCert("abc")` leaves the
entry `stellar:cert:abc` with the result of the store transaction, handle `H0`;
`updateCert("abc", "abc")` then returns the result with the handle `H1` and writes it
under the same key: the entry under the old hash is not what it was. -/
theorem updateCert_same_hash_overwrites :
    StellarService.storeCert ⟨none⟩ (numberedLedger (structured [])) 0 (.str "abc") ⟨[], []⟩
      = some (.ok (.obj [("txHash", .str "H0")]),
          ⟨[("stellar:cert:abc", ⟨"\x7b\"txHash\":\"H0\"\x7d", some 604800⟩)],
           [(METHODS.STORE_CERT, [.str "abc"])]⟩)
    ∧ StellarService.updateCert ⟨none⟩ (numberedLedger (structured [])) 0 (.str "abc") (.str "abc")
        ⟨[("stellar:cert:abc", ⟨"\x7b\"txHash\":\"H0\"\x7d", some 604800⟩)],
         [(METHODS.STORE_CERT, [.str "abc"])]⟩
      = some (.ok (.obj [("txHash", .str "H1")]),
          ⟨[("stellar:cert:abc", ⟨"\x7b\"txHash\":\"H1\"\x7d", some 604800⟩)],
           [(METHODS.STORE_CERT, [.str "abc"]), (METHODS.UPDATE_CERT, [.str "abc", .str "abc"])]⟩)
    ∧ RedisStore.entry? [("stellar:cert:abc", ⟨"\x7b\"txHash\":\"H1\"\x7d", some 604800⟩)]
        (constructRedisKey ⟨none⟩ ("stellar:cert:" ++ "abc"))
      = some ⟨"\x7b\"txHash\":\"H1\"\x7d", some 604800⟩
    ∧ RedisStore.entry? [("stellar:cert:abc", ⟨"\x7b\"txHash\":\"H0\"\x7d", some 604800⟩)]
        (constructRedisKey ⟨none⟩ ("stellar:cert:" ++ "abc"))
      = some ⟨"\x7b\"txHash\":\"H0\"\x7d", some 604800⟩ :=
  ⟨rfl, rfl, rfl, rfl⟩

end Soroban
